import Mathlib

/-!
Verification of the kubeconfig reconciliation and credential-deduplication
engine of `cloudctl` (cmd/sync.go), via a shallow embedding in Lean.

Conventions of the embedding:
* Go `map[string]T` values are modelled as association lists
  `List (String × T)`; real Go maps never hold duplicate keys, so theorems
  that quantify over configurations carry a `NodupKeys` hypothesis.
  Go map equality is extensional (a `nil` map and an empty map hold the
  same entries), which is reflected by the `lookup`-based equivalences.
* Go `[]byte` values are modelled as `List Nat` (one `Nat` per byte);
  `bytes.Equal` treats `nil` and empty slices alike, so a single list type
  suffices.
* Go strings are Lean `String`s; `[]byte(s)` is UTF-8 encoding.
* The package-level variables `prefix` and `mergeIdenticalUsers` are
  threaded as explicit parameters `pfx` and `dedup`.
* A Go runtime panic (assignment to an entry of a `nil` map) is modelled
  by `Except.error`; `mergeKubeconfig`'s error return is the same monad.
-/

namespace Cloudctl

/-! ## Bytes and byte helpers -/

abbrev Bytes := List Nat

/-- UTF-8 encoding of one character, as Go produces for `[]byte(string)`. -/
def utf8Char (c : Char) : List Nat :=
  let n := c.toNat
  if n < 128 then [n]
  else if n < 2048 then [192 + n / 64, 128 + n % 64]
  else if n < 65536 then [224 + n / 4096, 128 + (n / 64) % 64, 128 + n % 64]
  else [240 + n / 262144, 128 + (n / 4096) % 64, 128 + (n / 64) % 64, 128 + n % 64]

/-- Go `[]byte(s)`: the UTF-8 bytes of a string. -/
def strBytes (s : String) : Bytes :=
  (s.data.map utf8Char).flatten

/-- ASCII whitespace, as trimmed by Go's `bytes.TrimSpace` on ASCII input. -/
def isSpaceByte (b : Nat) : Bool :=
  b == 32 || b == 9 || b == 10 || b == 11 || b == 12 || b == 13

/-- Model of Go `bytes.TrimSpace` (restricted to ASCII whitespace). -/
def trimSpaceBytes (b : Bytes) : Bytes :=
  (b.dropWhile isSpaceByte).reverse.dropWhile isSpaceByte |>.reverse

/-! ## Association-list model of Go string-keyed maps -/

/-- Go map read: the value stored under `k`, if any. -/
def lookupM {α : Type} (m : List (String × α)) (k : String) : Option α :=
  match m with
  | [] => none
  | (k', v) :: t => if k' = k then some v else lookupM t k

/-- Go map write `m[k] = v`: replace the entry in place, or append it. -/
def setk {α : Type} (m : List (String × α)) (k : String) (v : α) : List (String × α) :=
  match m with
  | [] => [(k, v)]
  | (k', v') :: t => if k' = k then (k, v) :: t else (k', v') :: setk t k v

/-- The key lists of a well-formed Go map hold no duplicates. -/
def NodupKeys {α : Type} (m : List (String × α)) : Prop :=
  (m.map Prod.fst).Nodup

/-! ## SHA-256 (as used by crypto/sha256), over `Bytes` -/

def m32 : Nat := 4294967296

def rotr32 (n x : Nat) : Nat :=
  ((x >>> n) ||| (x <<< (32 - n))) % m32

/-- The 64 SHA-256 round constants (FIPS 180-4), in decimal. -/
def shaK : List Nat :=
  [1116352408, 1899447441, 3049323471, 3921009573, 961987163, 1508970993,
   2453635748, 2870763221, 3624381080, 310598401, 607225278, 1426881987,
   1925078388, 2162078206, 2614888103, 3248222580, 3835390401, 4022224774,
   264347078, 604807628, 770255983, 1249150122, 1555081692, 1996064986,
   2554220882, 2821834349, 2952996808, 3210313671, 3336571891, 3584528711,
   113926993, 338241895, 666307205, 773529912, 1294757372, 1396182291,
   1695183700, 1986661051, 2177026350, 2456956037, 2730485921, 2820302411,
   3259730800, 3345764771, 3516065817, 3600352804, 4094571909, 275423344,
   430227734, 506948616, 659060556, 883997877, 958139571, 1322822218,
   1537002063, 1747873779, 1955562222, 2024104815, 2227730452, 2361852424,
   2428436474, 2756734187, 3204031479, 3329325298]

/-- The 8 SHA-256 initial hash values (FIPS 180-4), in decimal. -/
def shaH0 : List Nat :=
  [1779033703, 3144134277, 1013904242, 2773480762,
   1359893119, 2600822924, 528734635, 1541459225]

/-- SHA-256 message padding: append `0x80`, zeros, and the 64-bit big-endian
bit length, reaching a multiple of 64 bytes. -/
def shaPad (msg : Bytes) : Bytes :=
  let len := msg.length
  let zeros := (64 - (len + 9) % 64) % 64
  let bitLen := len * 8
  msg ++ [128] ++ List.replicate zeros 0 ++
    [bitLen / 2 ^ 56 % 256, bitLen / 2 ^ 48 % 256, bitLen / 2 ^ 40 % 256, bitLen / 2 ^ 32 % 256,
     bitLen / 2 ^ 24 % 256, bitLen / 2 ^ 16 % 256, bitLen / 2 ^ 8 % 256, bitLen % 256]

/-- Split a byte list into 64-byte chunks (structural recursion on a fuel
bound so that the kernel can evaluate it). -/
def chunks64Go (fuel : Nat) (l : Bytes) : List Bytes :=
  match fuel with
  | 0 => []
  | fuel + 1 => if l = [] then [] else l.take 64 :: chunks64Go fuel (l.drop 64)

/-- Split a byte list into 64-byte chunks. -/
def chunks64 (l : Bytes) : List Bytes :=
  chunks64Go l.length l

/-- Big-endian 32-bit words from bytes. -/
def wordsBE : Bytes → List Nat
  | b0 :: b1 :: b2 :: b3 :: t => (b0 * 2 ^ 24 + b1 * 2 ^ 16 + b2 * 2 ^ 8 + b3) :: wordsBE t
  | _ => []

def smallSigma0 (x : Nat) : Nat := rotr32 7 x ^^^ rotr32 18 x ^^^ (x >>> 3)
def smallSigma1 (x : Nat) : Nat := rotr32 17 x ^^^ rotr32 19 x ^^^ (x >>> 10)
def bigSigma0 (x : Nat) : Nat := rotr32 2 x ^^^ rotr32 13 x ^^^ rotr32 22 x
def bigSigma1 (x : Nat) : Nat := rotr32 6 x ^^^ rotr32 11 x ^^^ rotr32 25 x

/-- Extend the 16 message words to 64 schedule words (adding `n` words). -/
def extendW (w : List Nat) : Nat → List Nat
  | 0 => w
  | n + 1 =>
    let len := w.length
    let nw := (w.getD (len - 16) 0 + smallSigma0 (w.getD (len - 15) 0) +
               w.getD (len - 7) 0 + smallSigma1 (w.getD (len - 2) 0)) % m32
    extendW (w ++ [nw]) n

/-- One SHA-256 compression round; the state is `[a,b,c,d,e,f,g,h]`. -/
def shaRound (st : List Nat) (kw : Nat × Nat) : List Nat :=
  match st with
  | [a, b, c, d, e, f, g, h] =>
    let ch := (e &&& f) ^^^ ((e ^^^ 4294967295) &&& g)
    let maj := (a &&& b) ^^^ (a &&& c) ^^^ (b &&& c)
    let t1 := (h + bigSigma1 e + ch + kw.1 + kw.2) % m32
    let t2 := (bigSigma0 a + maj) % m32
    [(t1 + t2) % m32, a, b, c, (d + t1) % m32, e, f, g]
  | _ => st

/-- Process one 64-byte chunk, updating the 8-word hash state. -/
def shaChunk (h : List Nat) (chunk : Bytes) : List Nat :=
  let w := extendW (wordsBE chunk) 48
  let st := (shaK.zip w).foldl (fun st p => shaRound st (p.2, p.1)) h
  (h.zip st).map (fun p => (p.1 + p.2) % m32)

def word2bytesBE (x : Nat) : Bytes :=
  [x / 2 ^ 24 % 256, x / 2 ^ 16 % 256, x / 2 ^ 8 % 256, x % 256]

/-- SHA-256 digest (32 bytes) of a byte list. -/
def sha256 (msg : Bytes) : Bytes :=
  ((chunks64 (shaPad msg)).foldl shaChunk shaH0).map word2bytesBE |>.flatten

def hexChar (n : Nat) : Char :=
  "0123456789abcdef".data.getD n 'x'

/-- Go `hex.EncodeToString` of a byte list. -/
def hexEncode (b : Bytes) : String :=
  ⟨(b.map (fun x => [hexChar (x / 16), hexChar (x % 16)])).flatten⟩

/-! ## Go string helpers (strings.HasPrefix / strings.TrimPrefix) -/

/-- Model of Go `strings.HasPrefix`. -/
def goHasPrefix (s pre : String) : Bool :=
  pre.data.isPrefixOf s.data

/-- Model of Go `strings.TrimPrefix`. -/
def goTrimPrefix (s pre : String) : String :=
  if goHasPrefix s pre then ⟨s.data.drop pre.data.length⟩ else s

/-! ## Data model (clientcmdapi types, restricted to the fields the engine
reads or writes; the remaining clientcmdapi fields are never touched by
cmd/sync.go and are omitted) -/

structure Cluster where
  server : String
  certificateAuthorityData : Bytes
  extensions : List (String × Bytes)
  deriving Repr, DecidableEq

structure Context where
  cluster : String
  authInfo : String
  ns : String
  extensions : List (String × Bytes)
  deriving Repr, DecidableEq

structure AuthProviderConfig where
  name : String
  config : Option (List (String × String))
  deriving Repr, DecidableEq

structure ExecConfig where
  apiVersion : String
  command : String
  args : List String
  deriving Repr, DecidableEq

structure AuthInfo where
  clientCertificateData : Bytes
  clientKeyData : Bytes
  authProvider : Option AuthProviderConfig
  exec : Option ExecConfig
  deriving Repr, DecidableEq

structure Config where
  clusters : List (String × Cluster)
  authInfos : List (String × AuthInfo)
  contexts : List (String × Context)
  deriving Repr, DecidableEq

/-- Read of a possibly-`nil` Go map with the `v, ok := m[k]` form. -/
def cfgLookup (cfg : Option (List (String × String))) (k : String) : Option String :=
  match cfg with
  | none => none
  | some l => lookupM l k

/-- Read of a possibly-`nil` Go map with the defaulting `m[k]` form. -/
def cfgGet (cfg : Option (List (String × String))) (k : String) : String :=
  (cfgLookup cfg k).getD ""

/-- Go map assignment `m[k] = v`; panics (models as error) on a `nil` map. -/
def goMapSet (m : Option (List (String × String))) (k v : String) :
    Except String (Option (List (String × String))) :=
  match m with
  | none => Except.error "assignment to entry in nil map"
  | some l => Except.ok (some (setk l k v))

/-- Extensional equality of Go `map[string]string` values (`maps.Equal`). -/
def mapsEqual (a b : List (String × String)) : Bool :=
  (a.all fun p => lookupM b p.1 == lookupM a p.1) &&
  (b.all fun p => lookupM a p.1 == lookupM b p.1)

/-! ## cmd/sync.go: name helpers and credential identity -/

/-- `managedNameFunc` prefixes the given name with the configured prefix
(`fmt.Sprintf("%s:%s", prefix, name)`). -/
def managedNameFunc (pfx name : String) : String :=
  pfx ++ ":" ++ name

/-- `unmanagedNameFunc` removes the prefix from the given managed name. -/
def unmanagedNameFunc (pfx managedName : String) : String :=
  goTrimPrefix managedName (pfx ++ ":")

/-- `isManaged` checks if the given name is managed by cloudctl. -/
def isManaged (pfx name : String) : Bool :=
  goHasPrefix name (pfx ++ ":")

/-- `filterAuthProviderConfig` returns a copy of the config map excluding
"id-token" and "refresh-token". -/
def filterAuthProviderConfig (config : Option (List (String × String))) :
    List (String × String) :=
  match config with
  | none => []
  | some l => l.filter fun p => p.1 != "id-token" && p.1 != "refresh-token"

/-- `authInfoEqual` compares two AuthInfo objects, excluding "id-token" and
"refresh-token". -/
def authInfoEqual (a b : AuthInfo) : Bool :=
  if a.clientCertificateData ≠ b.clientCertificateData then false
  else if a.clientKeyData ≠ b.clientKeyData then false
  else
    match a.authProvider, b.authProvider with
    | none, some _ => false
    | some _, none => false
    | some ap, some bp =>
      if ap.name ≠ bp.name then false
      else mapsEqual (filterAuthProviderConfig ap.config) (filterAuthProviderConfig bp.config)
    | none, none => true

/-- `generateAuthInfoKey` creates a unique key for an AuthInfo based on
specific AuthProvider fields, excluding "id-token" and "refresh-token". -/
def generateAuthInfoKey (authInfo : AuthInfo) : String :=
  match authInfo.authProvider with
  | none =>
    "cert:" ++ hexEncode (sha256 (authInfo.clientCertificateData ++ authInfo.clientKeyData))
  | some ap =>
    let clientID := cfgGet ap.config "client-id"
    let clientSecret := cfgGet ap.config "client-secret"
    let authRequestExtraParams := cfgGet ap.config "auth-request-extra-params"
    let extraScopes := cfgGet ap.config "extra-scopes"
    "client-id:" ++ clientID ++ ";client-secret:" ++ clientSecret ++
      ";auth-request-extra-params:" ++ authRequestExtraParams ++
      ";extra-scopes:" ++ extraScopes

/-- First 16 hex characters of the SHA-256 of a string
(`hex.EncodeToString(sha256.Sum256([]byte(s)))[:16]`). -/
def hashString16 (s : String) : String :=
  ⟨(hexEncode (sha256 (strBytes s))).data.take 16⟩

/-- The managed name of a deduplicated AuthInfo
(`fmt.Sprintf("%s:auth-%s", prefix, hashString)`). -/
def managedAuthNameOf (pfx uniqueKey : String) : String :=
  pfx ++ ":auth-" ++ hashString16 uniqueKey

/-- `mergeAuthInfo`: merge AuthInfo objects while preserving id-token and
refresh-token; the `nil`-map guard precedes the token assignments. -/
def mergeAuthInfo (serverAuth : AuthInfo) (localAuth : Option AuthInfo) :
    Except String AuthInfo :=
  match localAuth with
  | none => Except.ok serverAuth
  | some la =>
    match serverAuth.authProvider, la.authProvider with
    | some sap, some lap => do
      let cfg0 := match sap.config with
        | none => some []
        | some c => some c
      let cfg1 ← match cfgLookup lap.config "id-token" with
        | some idToken => goMapSet cfg0 "id-token" idToken
        | none => pure cfg0
      let cfg2 ← match cfgLookup lap.config "refresh-token" with
        | some refreshToken => goMapSet cfg1 "refresh-token" refreshToken
        | none => pure cfg1
      Except.ok { serverAuth with authProvider := some { sap with config := cfg2 } }
    | _, _ => Except.ok serverAuth

/-- `extensionRaw` extracts the raw bytes for the given extension name. -/
def extensionRaw (m : List (String × Bytes)) (name : String) : Bytes :=
  match lookupM m name with
  | none => []
  | some raw => trimSpaceBytes raw

/-- `labelsExtensionEqual`: the "labels" extension is equal in both maps. -/
def labelsExtensionEqual (a b : List (String × Bytes)) : Bool :=
  extensionRaw a "labels" == extensionRaw b "labels"

/-! ## cmd/sync.go: mergeKubeconfig

The Go function iterates over the unordered `serverConfig` maps; the
embedding folds over the association lists in list order.  Each phase of
the single Go function is a named step function folded over the
corresponding server collection, in the source's statement order. -/

/-- Merge Clusters: upsert one incoming cluster under its managed name,
overwriting only if server URL, CA data or the labels extension changed. -/
def clusterStep (pfx : String) (acc : List (String × Cluster)) (p : String × Cluster) :
    List (String × Cluster) :=
  let managedName := managedNameFunc pfx p.1
  match lookupM acc managedName with
  | none => setk acc managedName p.2
  | some localCluster =>
    if localCluster.server = p.2.server ∧
        localCluster.certificateAuthorityData = p.2.certificateAuthorityData ∧
        labelsExtensionEqual localCluster.extensions p.2.extensions = true then
      acc
    else setk acc managedName p.2

/-- Merge AuthInfos: one step of the fold over `serverConfig.AuthInfos`.
State: the local AuthInfos and the `authInfoMap` (uniqueKey ↦ managed name,
used only when `dedup` holds). -/
def authInfoStep (pfx : String) (dedup : Bool)
    (st : List (String × AuthInfo) × List (String × String)) (p : String × AuthInfo) :
    Except String (List (String × AuthInfo) × List (String × String)) :=
  if dedup then
    let uniqueKey := generateAuthInfoKey p.2
    let managedAuthName := managedAuthNameOf pfx uniqueKey
    match lookupM st.1 managedAuthName with
    | some existingAuth => do
      let mergedAuth ← mergeAuthInfo p.2 (some existingAuth)
      Except.ok (setk st.1 managedAuthName mergedAuth, setk st.2 uniqueKey managedAuthName)
    | none =>
      Except.ok (setk st.1 managedAuthName p.2, setk st.2 uniqueKey managedAuthName)
  else
    let managedAuthName := managedNameFunc pfx p.1
    match lookupM st.1 managedAuthName with
    | none => Except.ok (setk st.1 managedAuthName p.2, st.2)
    | some localAuth =>
      if authInfoEqual localAuth p.2 then Except.ok st
      else do
        let mergedAuth ← mergeAuthInfo p.2 (some localAuth)
        Except.ok (setk st.1 managedAuthName mergedAuth, st.2)

/-- Merge Contexts: one step of the fold over `serverConfig.Contexts`.
State: local AuthInfos, `authInfoMap`, local Contexts (the safety branch
for a missing map entry writes the AuthInfos as the source does). -/
def contextStep (pfx : String) (dedup : Bool) (srvAuthInfos : List (String × AuthInfo))
    (st : List (String × AuthInfo) × List (String × String) × List (String × Context))
    (p : String × Context) :
    Except String (List (String × AuthInfo) × List (String × String) × List (String × Context)) := do
  let managedName := p.1
  let (managedAuthInfoName, authInfos, authInfoMap) ←
    if dedup then
      match lookupM srvAuthInfos p.2.authInfo with
      | none =>
        Except.error ("AuthInfo " ++ p.2.authInfo ++ " referenced in context " ++ p.1 ++
          " does not exist")
      | some serverAuth =>
        let uniqueKey := generateAuthInfoKey serverAuth
        match lookupM st.2.1 uniqueKey with
        | some mappedName => Except.ok (mappedName, st.1, st.2.1)
        | none =>
          let fresh := managedAuthNameOf pfx uniqueKey
          Except.ok (fresh, setk st.1 fresh serverAuth, setk st.2.1 uniqueKey fresh)
    else
      Except.ok (managedNameFunc pfx p.2.authInfo, st.1, st.2.1)
  let managedClusterName := managedNameFunc pfx p.2.cluster
  let serverCtxCopy := { p.2 with cluster := managedClusterName, authInfo := managedAuthInfoName }
  let contexts :=
    match lookupM st.2.2 managedName with
    | none => setk st.2.2 managedName serverCtxCopy
    | some localCtx =>
      if localCtx.cluster = serverCtxCopy.cluster ∧ localCtx.authInfo = serverCtxCopy.authInfo ∧
          localCtx.ns = serverCtxCopy.ns then
        st.2.2
      else setk st.2.2 managedName serverCtxCopy
  Except.ok (authInfos, authInfoMap, contexts)

/-- Keep-condition of the managed-Clusters deletion loop. -/
def keepCluster (pfx : String) (srvClusters : List (String × Cluster)) (k : String) : Bool :=
  if isManaged pfx k then
    (lookupM srvClusters (unmanagedNameFunc pfx k)).isSome
  else true

/-- Keep-condition of the managed-AuthInfos deletion loop. -/
def keepAuthInfo (pfx : String) (dedup : Bool) (authInfoMap : List (String × String))
    (srvAuthInfos : List (String × AuthInfo)) (k : String) : Bool :=
  if isManaged pfx k then
    if dedup then authInfoMap.any fun q => q.2 == k
    else (lookupM srvAuthInfos (unmanagedNameFunc pfx k)).isSome
  else true

/-- Keep-condition of the managed-Contexts deletion loop. -/
def keepContext (pfx : String) (dedup : Bool) (srv : Config)
    (authInfoMap : List (String × String)) (k : String) (c : Context) : Bool :=
  if isManaged pfx k then
    match lookupM srv.contexts (unmanagedNameFunc pfx k) with
    | none => false
    | some serverCtx =>
      let expectedCluster := managedNameFunc pfx serverCtx.cluster
      let expectedAuthInfo : Option String :=
        if dedup then
          match lookupM srv.authInfos serverCtx.authInfo with
          | none => none
          | some serverAuth =>
            lookupM authInfoMap (generateAuthInfoKey serverAuth)
        else some (managedNameFunc pfx serverCtx.authInfo)
      match expectedAuthInfo with
      | none => false
      | some expAuth => c.cluster == expectedCluster && c.authInfo == expAuth
  else true

/-- `mergeKubeconfig`: merge the incoming (server) config into the local
config — upsert clusters, auth infos (deduplicating when `dedup`), and
contexts, then prune managed entries with no incoming counterpart. -/
def mergeKubeconfig (pfx : String) (dedup : Bool) (localConfig serverConfig : Config) :
    Except String Config := do
  let clusters1 := serverConfig.clusters.foldl (clusterStep pfx) localConfig.clusters
  let (auth1, amap1) ←
    serverConfig.authInfos.foldlM (authInfoStep pfx dedup) (localConfig.authInfos, [])
  let (auth2, amap2, ctxs1) ←
    serverConfig.contexts.foldlM (contextStep pfx dedup serverConfig.authInfos)
      (auth1, amap1, localConfig.contexts)
  let clusters2 := clusters1.filter fun q => keepCluster pfx serverConfig.clusters q.1
  let auth3 := auth2.filter fun q => keepAuthInfo pfx dedup amap2 serverConfig.authInfos q.1
  let ctxs2 := ctxs1.filter fun q => keepContext pfx dedup serverConfig amap2 q.1 q.2
  Except.ok { clusters := clusters2, authInfos := auth3, contexts := ctxs2 }

/-! ## Exec argument synthesizer -/

/-- ASCII whitespace characters as trimmed by Go `strings.TrimSpace`. -/
def isSpaceChar (c : Char) : Bool :=
  c == ' ' || c == '\t' || c == '\n' || c.toNat == 11 || c.toNat == 12 || c == '\r'

/-- Model of Go `strings.TrimSpace` (ASCII whitespace). -/
def goTrimSpace (s : String) : String :=
  ⟨(s.data.dropWhile isSpaceChar).reverse.dropWhile isSpaceChar |>.reverse⟩

/-- Go `strings.Split(s, ",")` (structural on the character list). -/
def splitCommaChars : List Char → List Char → List String
  | [], acc => [⟨acc.reverse⟩]
  | c :: rest, acc =>
    if c = ',' then ⟨acc.reverse⟩ :: splitCommaChars rest []
    else splitCommaChars rest (c :: acc)

def goSplitComma (s : String) : List String :=
  splitCommaChars s.data []

/-- Scan a raw comma-separated `key=value` list for a `connector_id=<value>`
component and return the first such value. -/
def connectorIdOf (raw : String) : Option String :=
  (goSplitComma raw).findSome? fun part =>
    if goHasPrefix part "connector_id=" then some ⟨part.data.drop 13⟩ else none

/-- Modelled from the spec: the repository function `buildKubeloginArgs`
(the Exec Argument Synthesizer, `synthesize` of spec §4.3) is not present
under `src/` — only `cmd/sync_test.go` exercises it — so it is modelled
from the spec's words: the fixed `get-token` subcommand first, one flag per
mapped parameter (`idp-issuer-url` → `--oidc-issuer-url`, `client-id` →
`--oidc-client-id`, `client-secret` → `--oidc-client-secret`), one
`--oidc-extra-scope` flag per comma-separated, whitespace-trimmed scope,
the raw `auth-request-extra-params` string passed through verbatim, the
token cache directory flag (`<cacheBaseDir>/<value>` when the raw
extra-params string contains a `connector_id=<value>` component, otherwise
`<cacheBaseDir>`), and any caller-supplied extra args appended verbatim
last. -/
def buildKubeloginArgs (cfg : List (String × String)) (extraArgs : List String)
    (cacheBaseDir : String) : List String :=
  let issuer := (lookupM cfg "idp-issuer-url").getD ""
  let clientID := (lookupM cfg "client-id").getD ""
  let clientSecret := (lookupM cfg "client-secret").getD ""
  let extraScopes := (lookupM cfg "extra-scopes").getD ""
  let extraParams := (lookupM cfg "auth-request-extra-params").getD ""
  let cacheDir :=
    match connectorIdOf extraParams with
    | some v => cacheBaseDir ++ "/" ++ v
    | none => cacheBaseDir
  ["get-token"] ++
    (if issuer = "" then [] else ["--oidc-issuer-url=" ++ issuer]) ++
    (if clientID = "" then [] else ["--oidc-client-id=" ++ clientID]) ++
    (if clientSecret = "" then [] else ["--oidc-client-secret=" ++ clientSecret]) ++
    (if extraScopes = "" then []
     else (goSplitComma extraScopes).map fun s => "--oidc-extra-scope=" ++ goTrimSpace s) ++
    (if extraParams = "" then [] else ["--oidc-auth-request-extra-params=" ++ extraParams]) ++
    ["--token-cache-dir=" ++ cacheDir] ++
    extraArgs

/-! ## Lemmas: the association-list map model -/

theorem lookupM_setk_self {α : Type} (m : List (String × α)) (k : String) (v : α) :
    lookupM (setk m k v) k = some v := by
  induction m with
  | nil => simp [setk, lookupM]
  | cons p t ih =>
    by_cases h : p.1 = k
    · simp [setk, lookupM, h]
    · simp [setk, lookupM, h, ih]

theorem lookupM_setk_ne {α : Type} (m : List (String × α)) (k k' : String) (v : α)
    (h : k ≠ k') : lookupM (setk m k v) k' = lookupM m k' := by
  induction m with
  | nil => simp [setk, lookupM, h]
  | cons p t ih =>
    by_cases hp : p.1 = k
    · subst hp
      simp [setk, lookupM, h]
    · simp [setk, lookupM, hp, ih]

theorem setk_self_of_lookup {α : Type} (m : List (String × α)) (k : String) (v : α)
    (h : lookupM m k = some v) : setk m k v = m := by
  induction m with
  | nil => simp [lookupM] at h
  | cons p t ih =>
    obtain ⟨k1, v1⟩ := p
    by_cases hp : k1 = k
    · subst hp
      simp [lookupM] at h
      simp [setk, h]
    · simp [lookupM, hp] at h
      simp [setk, hp, ih h]

theorem mem_of_lookupM_eq_some {α : Type} (m : List (String × α)) (k : String) (v : α)
    (h : lookupM m k = some v) : (k, v) ∈ m := by
  induction m with
  | nil => simp [lookupM] at h
  | cons p t ih =>
    by_cases hp : p.1 = k
    · subst hp
      simp [lookupM] at h
      simp [← h]
    · simp [lookupM, hp] at h
      exact List.mem_cons_of_mem _ (ih h)

theorem lookupM_isSome_of_mem {α : Type} (m : List (String × α)) (p : String × α)
    (h : p ∈ m) : (lookupM m p.1).isSome := by
  induction m with
  | nil => simp at h
  | cons q t ih =>
    rcases List.mem_cons.mp h with h | h
    · subst h
      simp [lookupM]
    · by_cases hq : q.1 = p.1
      · simp [lookupM, hq]
      · simp [lookupM, hq, ih h]

theorem lookupM_eq_value_of_mem {α : Type} (m : List (String × α)) (p : String × α)
    (hm : NodupKeys m) (h : p ∈ m) : lookupM m p.1 = some p.2 := by
  induction m with
  | nil => simp at h
  | cons q t ih =>
    have hnd : ¬ q.1 ∈ t.map Prod.fst ∧ NodupKeys t := by
      simpa [NodupKeys] using hm
    rcases List.mem_cons.mp h with h | h
    · subst h
      simp [lookupM]
    · have hne : q.1 ≠ p.1 := by
        intro he
        exact hnd.1 (he ▸ List.mem_map.mpr ⟨p, h, rfl⟩)
      simp [lookupM, hne, ih hnd.2 h]

theorem setk_map_fst {α : Type} (m : List (String × α)) (k : String) (v : α) :
    (setk m k v).map Prod.fst =
      if (lookupM m k).isSome then m.map Prod.fst else m.map Prod.fst ++ [k] := by
  induction m with
  | nil => simp [setk, lookupM]
  | cons q u ihq =>
    by_cases hq : q.1 = k
    · simp [setk, lookupM, hq]
    · simp only [setk, if_neg hq, lookupM, List.map_cons, ihq]
      by_cases hl : (lookupM u k).isSome <;> simp [hl, hq]

theorem nodupKeys_setk {α : Type} (m : List (String × α)) (k : String) (v : α)
    (hm : NodupKeys m) : NodupKeys (setk m k v) := by
  unfold NodupKeys
  rw [setk_map_fst]
  by_cases hl : (lookupM m k).isSome
  · simpa [hl] using hm
  · simp only [hl, if_false, Bool.false_eq_true]
    refine List.Nodup.append hm (List.nodup_singleton k) ?_
    intro a ha hb
    simp at hb
    subst hb
    rcases List.mem_map.mp ha with ⟨p, hp, hfst⟩
    have := lookupM_isSome_of_mem m p hp
    rw [hfst] at this
    exact hl this

theorem nodupKeys_filter {α : Type} (m : List (String × α)) (p : String × α → Bool)
    (hm : NodupKeys m) : NodupKeys (m.filter p) := by
  unfold NodupKeys
  exact ((List.filter_sublist m).map Prod.fst).nodup hm

theorem lookupM_filter {α : Type} (m : List (String × α)) (p : String × α → Bool)
    (k : String) (hm : NodupKeys m) :
    lookupM (m.filter p) k = (lookupM m k).filter fun v => p (k, v) := by
  induction m with
  | nil => simp [lookupM]
  | cons q t ih =>
    have hnd : ¬ q.1 ∈ t.map Prod.fst ∧ NodupKeys t := by
      simpa [NodupKeys] using hm
    by_cases hq : q.1 = k
    · subst hq
      have hnone : lookupM (t.filter p) q.1 = none := by
        cases hfl : lookupM (t.filter p) q.1 with
        | none => rfl
        | some w =>
          have hmem := mem_of_lookupM_eq_some _ _ _ hfl
          have : (q.1, w) ∈ t := List.mem_of_mem_filter hmem
          exact absurd (List.mem_map.mpr ⟨(q.1, w), this, rfl⟩) hnd.1
      by_cases hp : p q
      · simp [List.filter_cons, hp, lookupM, Option.filter]
      · simp only [List.filter_cons, hp, Bool.false_eq_true, if_false, lookupM, hnone]
        simp [lookupM, Option.filter, hp]
    · by_cases hp : p q
      · simp [List.filter_cons, hp, lookupM, hq, ih hnd.2]
      · simp [List.filter_cons, hp, lookupM, hq, ih hnd.2]

theorem filter_eq_self_of_keep {α : Type} (m : List (String × α)) (p : String × α → Bool)
    (h : ∀ q ∈ m, p q = true) : m.filter p = m :=
  List.filter_eq_self.mpr h

/-! ## Lemmas: a generic keyed upsert fold

Each merge phase writes, for every incoming entry `e`, the key `key e` with
a value computed from the incoming entry and the current entry at that key.
`stepF` is this normal form, and `chainF` describes the per-key evolution. -/

def stepF {α β : Type} (key : β → String) (f : β → Option α → α)
    (m : List (String × α)) (e : β) : List (String × α) :=
  setk m (key e) (f e (lookupM m (key e)))

def chainF {α β : Type} (f : β → Option α → α) (v : Option α) (es : List β) : Option α :=
  es.foldl (fun v e => some (f e v)) v

theorem lookupM_foldl_stepF {α β : Type} (key : β → String) (f : β → Option α → α)
    (l : List β) (m : List (String × α)) (k : String) :
    lookupM (l.foldl (stepF key f) m) k =
      chainF f (lookupM m k) (l.filter fun e => key e == k) := by
  induction l generalizing m with
  | nil => simp [chainF]
  | cons e t ih =>
    by_cases he : key e = k
    · simp only [List.foldl_cons, ih, stepF, he, List.filter_cons, beq_self_eq_true, if_true]
      rw [lookupM_setk_self]
      simp [chainF]
    · simp only [List.foldl_cons, ih, stepF, List.filter_cons]
      rw [lookupM_setk_ne _ _ _ _ he]
      simp [he]

theorem nodupKeys_foldl_stepF {α β : Type} (key : β → String) (f : β → Option α → α)
    (l : List β) (m : List (String × α)) (hm : NodupKeys m) :
    NodupKeys (l.foldl (stepF key f) m) := by
  induction l generalizing m with
  | nil => exact hm
  | cons e t ih => exact ih _ (nodupKeys_setk _ _ _ hm)

theorem foldl_stepF_eq_self {α β : Type} (key : β → String) (f : β → Option α → α)
    (l : List β) (m : List (String × α))
    (h : ∀ e ∈ l, lookupM m (key e) = some (f e (lookupM m (key e)))) :
    l.foldl (stepF key f) m = m := by
  induction l with
  | nil => rfl
  | cons e t ih =>
    have hstep : stepF key f m e = m := by
      rw [stepF]
      exact setk_self_of_lookup _ _ _ (h e (by simp))
    rw [List.foldl_cons, hstep]
    exact ih fun e he => h e (List.mem_cons_of_mem _ he)

/-! ## Lemmas: `Except`-valued folds -/

theorem foldlM_ok {σ β : Type} (f : σ → β → Except String σ) (g : σ → β → σ)
    (l : List β) (hf : ∀ s e, e ∈ l → f s e = Except.ok (g s e)) (s : σ) :
    l.foldlM f s = Except.ok (l.foldl g s) := by
  induction l generalizing s with
  | nil => rfl
  | cons e t ih =>
    rw [List.foldlM_cons, hf s e (by simp), List.foldl_cons]
    exact ih (fun s e he => hf s e (List.mem_cons_of_mem _ he)) _

theorem foldlM_isOk_iff {σ β : Type} (f : σ → β → Except String σ) (P : β → Prop)
    (l : List β)
    (herr : ∀ s e, e ∈ l → P e → ∃ msg, f s e = Except.error msg)
    (hok : ∀ s e, e ∈ l → ¬ P e → ∃ s2, f s e = Except.ok s2)
    (s : σ) :
    (∃ out, l.foldlM f s = Except.ok out) ↔ ∀ e ∈ l, ¬ P e := by
  induction l generalizing s with
  | nil =>
    simp only [List.foldlM_nil, List.not_mem_nil]
    exact ⟨fun _ e h => absurd h (by simp), fun _ => ⟨s, rfl⟩⟩
  | cons e t ih =>
    by_cases hP : P e
    · obtain ⟨msg, hmsg⟩ := herr s e (by simp) hP
      rw [List.foldlM_cons, hmsg]
      have hber : ((Except.error msg : Except String σ) >>= fun s2 => t.foldlM f s2) =
          Except.error msg := rfl
      rw [hber]
      constructor
      · rintro ⟨out, hout⟩
        exact Except.noConfusion hout
      · intro h
        exact absurd hP (h e (by simp))
    · obtain ⟨s2, hs2⟩ := hok s e (by simp) hP
      rw [List.foldlM_cons, hs2]
      have hbok : ((Except.ok s2 : Except String σ) >>= fun x => t.foldlM f x) =
          t.foldlM f s2 := rfl
      rw [hbok]
      have := ih (fun s e he => herr s e (List.mem_cons_of_mem _ he))
        (fun s e he => hok s e (List.mem_cons_of_mem _ he)) s2
      constructor
      · intro h x hx
        rcases List.mem_cons.mp hx with hx | hx
        · subst hx
          exact hP
        · exact (this.mp h) x hx
      · intro h
        exact this.mpr fun x hx => h x (List.mem_cons_of_mem _ hx)

/-! ## Pure value forms of the merge steps -/

/-- Write an optional token into a config list. -/
def setTok (l : List (String × String)) (k : String) (t : Option String) :
    List (String × String) :=
  match t with
  | none => l
  | some v => setk l k v

/-- The config list a possibly-`nil` config map holds. -/
def baseCfg (c : Option (List (String × String))) : List (String × String) :=
  match c with
  | none => []
  | some l => l

/-- The value `mergeAuthInfo` computes (it never actually fails: the
`nil`-map guard precedes both token assignments). -/
def mergeAuthInfoV (serverAuth la : AuthInfo) : AuthInfo :=
  match serverAuth.authProvider, la.authProvider with
  | some sap, some lap =>
    let cfg := setTok (setTok (baseCfg sap.config) "id-token" (cfgLookup lap.config "id-token"))
      "refresh-token" (cfgLookup lap.config "refresh-token")
    { serverAuth with authProvider := some { sap with config := some cfg } }
  | _, _ => serverAuth

theorem mergeAuthInfo_ok (a la : AuthInfo) :
    mergeAuthInfo a (some la) = Except.ok (mergeAuthInfoV a la) := by
  simp only [mergeAuthInfo, mergeAuthInfoV]
  cases ha : a.authProvider with
  | none => cases la.authProvider <;> rfl
  | some sap =>
    cases hl : la.authProvider with
    | none => rfl
    | some lap =>
      cases hc : sap.config <;>
        cases h1 : cfgLookup lap.config "id-token" <;>
        cases h2 : cfgLookup lap.config "refresh-token" <;>
        simp [hc, h1, h2, goMapSet, setTok, baseCfg, Bind.bind, Except.bind, Pure.pure, Except.pure]

/-- Pure form of `authInfoStep`. -/
def authInfoStepV (pfx : String) (dedup : Bool)
    (st : List (String × AuthInfo) × List (String × String)) (p : String × AuthInfo) :
    List (String × AuthInfo) × List (String × String) :=
  if dedup then
    let uniqueKey := generateAuthInfoKey p.2
    let managedAuthName := managedAuthNameOf pfx uniqueKey
    match lookupM st.1 managedAuthName with
    | some existingAuth =>
      (setk st.1 managedAuthName (mergeAuthInfoV p.2 existingAuth),
       setk st.2 uniqueKey managedAuthName)
    | none => (setk st.1 managedAuthName p.2, setk st.2 uniqueKey managedAuthName)
  else
    let managedAuthName := managedNameFunc pfx p.1
    match lookupM st.1 managedAuthName with
    | none => (setk st.1 managedAuthName p.2, st.2)
    | some localAuth =>
      if authInfoEqual localAuth p.2 then st
      else (setk st.1 managedAuthName (mergeAuthInfoV p.2 localAuth), st.2)

theorem authInfoStep_ok (pfx : String) (dedup : Bool)
    (st : List (String × AuthInfo) × List (String × String)) (p : String × AuthInfo) :
    authInfoStep pfx dedup st p = Except.ok (authInfoStepV pfx dedup st p) := by
  cases dedup with
  | true =>
    simp only [authInfoStep, authInfoStepV, if_true]
    cases h : lookupM st.1 (managedAuthNameOf pfx (generateAuthInfoKey p.2)) with
    | none => rfl
    | some ex => simp [mergeAuthInfo_ok, Bind.bind, Except.bind]
  | false =>
    simp only [authInfoStep, authInfoStepV]
    rw [if_neg (by simp), if_neg (by simp)]
    cases h : lookupM st.1 (managedNameFunc pfx p.1) with
    | none => rfl
    | some la =>
      by_cases he : authInfoEqual la p.2
      · simp [he]
      · simp [he, mergeAuthInfo_ok, Bind.bind, Except.bind]

/-- Key and value functions of the dedup AuthInfo upsert. -/
def authKeyD (pfx : String) (p : String × AuthInfo) : String :=
  managedAuthNameOf pfx (generateAuthInfoKey p.2)

def authValD (p : String × AuthInfo) (cur : Option AuthInfo) : AuthInfo :=
  match cur with
  | none => p.2
  | some ex => mergeAuthInfoV p.2 ex

/-- Key and value functions of the non-dedup AuthInfo upsert. -/
def authKeyN (pfx : String) (p : String × AuthInfo) : String :=
  managedNameFunc pfx p.1

def authValN (p : String × AuthInfo) (cur : Option AuthInfo) : AuthInfo :=
  match cur with
  | none => p.2
  | some la => if authInfoEqual la p.2 then la else mergeAuthInfoV p.2 la

/-- The `authInfoMap` evolution of the dedup AuthInfo phase. -/
def amapStep (pfx : String) (am : List (String × String)) (p : String × AuthInfo) :
    List (String × String) :=
  setk am (generateAuthInfoKey p.2)
    (managedAuthNameOf pfx (generateAuthInfoKey p.2))

theorem authInfoStepV_dedup (pfx : String)
    (st : List (String × AuthInfo) × List (String × String)) (p : String × AuthInfo) :
    authInfoStepV pfx true st p =
      (stepF (authKeyD pfx) authValD st.1 p, amapStep pfx st.2 p) := by
  unfold authInfoStepV stepF authKeyD authValD amapStep
  simp only [if_true]
  cases lookupM st.1 (managedAuthNameOf pfx (generateAuthInfoKey p.2)) <;> rfl

theorem authInfoStepV_nondedup (pfx : String)
    (st : List (String × AuthInfo) × List (String × String)) (p : String × AuthInfo) :
    authInfoStepV pfx false st p = (stepF (authKeyN pfx) authValN st.1 p, st.2) := by
  unfold authInfoStepV stepF authKeyN authValN
  simp only [Bool.false_eq_true, if_false]
  cases hl : lookupM st.1 (managedNameFunc pfx p.1) with
  | none => rfl
  | some la =>
    by_cases he : authInfoEqual la p.2 <;> simp only [he, if_true, if_false]
    · rw [setk_self_of_lookup _ _ _ hl]
    · rfl

theorem foldl_authV_dedup (pfx : String) (l : List (String × AuthInfo))
    (st : List (String × AuthInfo) × List (String × String)) :
    l.foldl (authInfoStepV pfx true) st =
      (l.foldl (stepF (authKeyD pfx) authValD) st.1, l.foldl (amapStep pfx) st.2) := by
  induction l generalizing st with
  | nil => rfl
  | cons p t ih => rw [List.foldl_cons, authInfoStepV_dedup, ih]; rfl

theorem foldl_authV_nondedup (pfx : String) (l : List (String × AuthInfo))
    (st : List (String × AuthInfo) × List (String × String)) :
    l.foldl (authInfoStepV pfx false) st =
      (l.foldl (stepF (authKeyN pfx) authValN) st.1, st.2) := by
  induction l generalizing st with
  | nil => rfl
  | cons p t ih => rw [List.foldl_cons, authInfoStepV_nondedup, ih]; rfl

/-- The final `authInfoMap` of a reconciliation pass. -/
def amapFinal (pfx : String) (dedup : Bool) (srv : Config) : List (String × String) :=
  if dedup then srv.authInfos.foldl (amapStep pfx) [] else []

theorem lookupM_amapFold (pfx : String) (l : List (String × AuthInfo))
    (am : List (String × String)) (k : String) :
    lookupM (l.foldl (amapStep pfx) am) k =
      if l.any (fun p => generateAuthInfoKey p.2 == k) then some (managedAuthNameOf pfx k)
      else lookupM am k := by
  induction l generalizing am with
  | nil => simp
  | cons p t ih =>
    rw [List.foldl_cons, ih]
    by_cases hk : generateAuthInfoKey p.2 = k
    · subst hk
      by_cases ht : t.any (fun q => generateAuthInfoKey q.2 == generateAuthInfoKey p.2) <;>
        simp [amapStep, ht, lookupM_setk_self]
    · have : (generateAuthInfoKey p.2 == k) = false := by simpa using hk
      by_cases ht : t.any (fun q => generateAuthInfoKey q.2 == k) <;>
        simp [amapStep, ht, this, lookupM_setk_ne _ _ _ _ hk]

theorem mem_setk {α : Type} (m : List (String × α)) (k : String) (v : α) :
    ∀ q ∈ setk m k v, q = (k, v) ∨ q ∈ m := by
  induction m with
  | nil => simp [setk]
  | cons p t ih =>
    intro q hq
    by_cases hp : p.1 = k
    · simp only [setk, hp, if_true] at hq
      rcases List.mem_cons.mp hq with h | h
      · exact Or.inl h
      · exact Or.inr (List.mem_cons_of_mem _ h)
    · simp only [setk, hp, if_false] at hq
      rcases List.mem_cons.mp hq with h | h
      · exact Or.inr (h ▸ List.mem_cons_self _ _)
      · rcases ih q h with h2 | h2
        · exact Or.inl h2
        · exact Or.inr (List.mem_cons_of_mem _ h2)

theorem mem_amapFold_gen (pfx : String) (l : List (String × AuthInfo))
    (am : List (String × String)) :
    ∀ q ∈ l.foldl (amapStep pfx) am,
      (q.2 = managedAuthNameOf pfx q.1 ∧ ∃ p ∈ l, generateAuthInfoKey p.2 = q.1) ∨ q ∈ am := by
  induction l generalizing am with
  | nil => intro q hq; exact Or.inr hq
  | cons p t ih =>
    intro q hq
    rw [List.foldl_cons] at hq
    rcases ih (amapStep pfx am p) q hq with h | h
    · obtain ⟨h1, s, hs, h2⟩ := h
      exact Or.inl ⟨h1, s, List.mem_cons_of_mem _ hs, h2⟩
    · rcases mem_setk _ _ _ q h with h2 | h2
      · subst h2
        exact Or.inl ⟨rfl, p, by simp⟩
      · exact Or.inr h2

theorem mem_amapFold (pfx : String) (l : List (String × AuthInfo)) :
    ∀ q ∈ l.foldl (amapStep pfx) [],
      q.2 = managedAuthNameOf pfx q.1 ∧ ∃ p ∈ l, generateAuthInfoKey p.2 = q.1 := by
  intro q hq
  rcases mem_amapFold_gen pfx l [] q hq with h | h
  · exact h
  · simp at h

/-! ## The context phase in normal form -/

/-- The managed AuthInfo reference a reconciled Profile receives for an
incoming AuthInfo name (deterministic; `none` when the dedup path cannot
resolve the referenced incoming credential). -/
def expectedAuthName (pfx : String) (dedup : Bool) (srvAuthInfos : List (String × AuthInfo))
    (authName : String) : Option String :=
  if dedup then
    match lookupM srvAuthInfos authName with
    | none => none
    | some sa => some (managedAuthNameOf pfx (generateAuthInfoKey sa))
  else some (managedNameFunc pfx authName)

/-- The value the context upsert stores for one incoming Profile. -/
def ctxVal (pfx : String) (dedup : Bool) (srvAuthInfos : List (String × AuthInfo))
    (p : String × Context) (cur : Option Context) : Context :=
  let cc := { p.2 with cluster := managedNameFunc pfx p.2.cluster,
                       authInfo := (expectedAuthName pfx dedup srvAuthInfos p.2.authInfo).getD "" }
  match cur with
  | none => cc
  | some lc =>
    if lc.cluster = cc.cluster ∧ lc.authInfo = cc.authInfo ∧ lc.ns = cc.ns then lc else cc

theorem contextPhase_ok (pfx : String) (dedup : Bool) (srvA : List (String × AuthInfo))
    (l : List (String × Context)) (auth : List (String × AuthInfo))
    (amap : List (String × String)) (ctxs : List (String × Context))
    (hamap : ∀ n sa, dedup = true → lookupM srvA n = some sa →
      lookupM amap (generateAuthInfoKey sa) =
        some (managedAuthNameOf pfx (generateAuthInfoKey sa)))
    (hctx : ∀ q ∈ l, dedup = true → (lookupM srvA q.2.authInfo).isSome) :
    l.foldlM (contextStep pfx dedup srvA) (auth, amap, ctxs) =
      Except.ok (auth, amap, l.foldl (stepF Prod.fst (ctxVal pfx dedup srvA)) ctxs) := by
  induction l generalizing ctxs with
  | nil => rfl
  | cons q t ih =>
    have hstep : contextStep pfx dedup srvA (auth, amap, ctxs) q =
        Except.ok (auth, amap, stepF Prod.fst (ctxVal pfx dedup srvA) ctxs q) := by
      cases dedup with
      | true =>
        have hs := hctx q (by simp) rfl
        cases heq : lookupM srvA q.2.authInfo with
        | none => rw [heq] at hs; simp at hs
        | some sa =>
          have hmn := hamap q.2.authInfo sa rfl heq
          simp only [contextStep, if_true, heq, hmn]
          have hexp : expectedAuthName pfx true srvA q.2.authInfo =
              some (managedAuthNameOf pfx (generateAuthInfoKey sa)) := by
            simp [expectedAuthName, heq]
          simp only [stepF, ctxVal, hexp]
          cases hl : lookupM ctxs q.1 with
          | none => simp [Bind.bind, Except.bind, Pure.pure, Except.pure]
          | some lc =>
            by_cases hcond : lc.cluster = managedNameFunc pfx q.2.cluster ∧
                lc.authInfo = managedAuthNameOf pfx (generateAuthInfoKey sa) ∧
                lc.ns = q.2.ns
            · simp only [Bind.bind, Except.bind, Pure.pure, Except.pure, Option.getD_some]
              simp [hcond, setk_self_of_lookup _ _ _ hl]
            · simp only [Bind.bind, Except.bind, Pure.pure, Except.pure, Option.getD_some]
              simp [hcond]
      | false =>
        simp only [contextStep]
        rw [if_neg (by simp)]
        have hexp : expectedAuthName pfx false srvA q.2.authInfo =
            some (managedNameFunc pfx q.2.authInfo) := by
          simp [expectedAuthName]
        simp only [stepF, ctxVal, hexp]
        cases hl : lookupM ctxs q.1 with
        | none => simp [Bind.bind, Except.bind, Pure.pure, Except.pure]
        | some lc =>
          by_cases hcond : lc.cluster = managedNameFunc pfx q.2.cluster ∧
              lc.authInfo = managedNameFunc pfx q.2.authInfo ∧ lc.ns = q.2.ns
          · simp only [Bind.bind, Except.bind, Pure.pure, Except.pure, Option.getD_some]
            simp [hcond, setk_self_of_lookup _ _ _ hl]
          · simp only [Bind.bind, Except.bind, Pure.pure, Except.pure, Option.getD_some]
            simp [hcond]
    rw [List.foldlM_cons, hstep]
    have hbok : ∀ (x : List (String × AuthInfo) × List (String × String) × List (String × Context))
        (f : _ → Except String (List (String × AuthInfo) × List (String × String) × List (String × Context))),
        (Except.ok x >>= f) = f x := fun _ _ => rfl
    rw [hbok]
    rw [List.foldl_cons]
    exact ih _ fun q hq => hctx q (List.mem_cons_of_mem _ hq)

/-! ## The cluster phase in normal form -/

def clusterKey (pfx : String) (p : String × Cluster) : String :=
  managedNameFunc pfx p.1

def clusterVal (p : String × Cluster) (cur : Option Cluster) : Cluster :=
  match cur with
  | none => p.2
  | some lc =>
    if lc.server = p.2.server ∧ lc.certificateAuthorityData = p.2.certificateAuthorityData ∧
        labelsExtensionEqual lc.extensions p.2.extensions = true then lc
    else p.2

theorem clusterStep_eq_stepF (pfx : String) (m : List (String × Cluster)) (p : String × Cluster) :
    clusterStep pfx m p = stepF (clusterKey pfx) clusterVal m p := by
  simp only [clusterStep, stepF, clusterKey, clusterVal]
  cases hl : lookupM m (managedNameFunc pfx p.1) with
  | none => rfl
  | some lc =>
    by_cases hcond : lc.server = p.2.server ∧
        lc.certificateAuthorityData = p.2.certificateAuthorityData ∧
        labelsExtensionEqual lc.extensions p.2.extensions = true
    · simp [hcond, setk_self_of_lookup _ _ _ hl]
    · simp [hcond]

theorem clusterStep_funext (pfx : String) :
    clusterStep pfx = stepF (clusterKey pfx) clusterVal :=
  funext fun m => funext fun p => clusterStep_eq_stepF pfx m p

/-! ## mergeKubeconfig in normal form -/

/-- The configuration a successful reconciliation produces. -/
def mergeResult (pfx : String) (dedup : Bool) (loc srv : Config) : Config :=
  let amap := amapFinal pfx dedup srv
  let clusters1 := srv.clusters.foldl (stepF (clusterKey pfx) clusterVal) loc.clusters
  let auth1 :=
    if dedup then srv.authInfos.foldl (stepF (authKeyD pfx) authValD) loc.authInfos
    else srv.authInfos.foldl (stepF (authKeyN pfx) authValN) loc.authInfos
  let ctxs1 := srv.contexts.foldl (stepF Prod.fst (ctxVal pfx dedup srv.authInfos)) loc.contexts
  { clusters := clusters1.filter fun q => keepCluster pfx srv.clusters q.1
    authInfos := auth1.filter fun q => keepAuthInfo pfx dedup amap srv.authInfos q.1
    contexts := ctxs1.filter fun q => keepContext pfx dedup srv amap q.1 q.2 }

theorem mergeKubeconfig_ok (pfx : String) (dedup : Bool) (loc srv : Config)
    (h : ∀ q ∈ srv.contexts, dedup = true → (lookupM srv.authInfos q.2.authInfo).isSome) :
    mergeKubeconfig pfx dedup loc srv = Except.ok (mergeResult pfx dedup loc srv) := by
  have hamap : ∀ n sa, dedup = true → lookupM srv.authInfos n = some sa →
      lookupM (amapFinal pfx dedup srv) (generateAuthInfoKey sa) =
        some (managedAuthNameOf pfx (generateAuthInfoKey sa)) := by
    intro n sa hd hlk
    subst hd
    have hmem : (n, sa) ∈ srv.authInfos := mem_of_lookupM_eq_some _ _ _ hlk
    have hany : srv.authInfos.any
        (fun p => generateAuthInfoKey p.2 == generateAuthInfoKey sa) = true := by
      exact List.any_eq_true.mpr ⟨(n, sa), hmem, by simp⟩
    simp [amapFinal, lookupM_amapFold, hany]
  have hauth : srv.authInfos.foldlM (authInfoStep pfx dedup) (loc.authInfos, []) =
      Except.ok (srv.authInfos.foldl (authInfoStepV pfx dedup) (loc.authInfos, [])) :=
    foldlM_ok _ _ _ (fun s e _ => authInfoStep_ok pfx dedup s e) _
  cases dedup with
  | true =>
    rw [foldl_authV_dedup] at hauth
    have hctxs := contextPhase_ok pfx true srv.authInfos srv.contexts
      (srv.authInfos.foldl (stepF (authKeyD pfx) authValD) loc.authInfos)
      (srv.authInfos.foldl (amapStep pfx) []) loc.contexts
      (fun n sa hd hlk => by simpa [amapFinal] using hamap n sa hd hlk)
      (fun q hq hd => h q hq hd)
    simp only [mergeKubeconfig, hauth, hctxs, Bind.bind, Except.bind]
    simp [mergeResult, amapFinal, clusterStep_funext]
  | false =>
    rw [foldl_authV_nondedup] at hauth
    have hctxs := contextPhase_ok pfx false srv.authInfos srv.contexts
      (srv.authInfos.foldl (stepF (authKeyN pfx) authValN) loc.authInfos)
      [] loc.contexts (fun n sa hd => by simp at hd)
      (fun q hq hd => by simp at hd)
    simp only [mergeKubeconfig, hauth, hctxs, Bind.bind, Except.bind]
    simp [mergeResult, amapFinal, clusterStep_funext]

/-! ## Lemmas: managed names -/

theorem string_eq_of_data (a b : String) (h : a.data = b.data) : a = b :=
  String.ext h

theorem data_managedNameFunc (pfx n : String) :
    (managedNameFunc pfx n).data = (pfx ++ ":").data ++ n.data := by
  simp [managedNameFunc, String.data_append]

theorem isManaged_managedNameFunc (pfx n : String) :
    isManaged pfx (managedNameFunc pfx n) = true := by
  simp only [isManaged, goHasPrefix, data_managedNameFunc]
  rw [List.isPrefixOf_iff_prefix]
  exact List.prefix_append _ _

theorem unmanaged_managedNameFunc (pfx n : String) :
    unmanagedNameFunc pfx (managedNameFunc pfx n) = n := by
  have hpre : goHasPrefix (managedNameFunc pfx n) (pfx ++ ":") = true := by
    have := isManaged_managedNameFunc pfx n
    simpa [isManaged] using this
  simp only [unmanagedNameFunc, goTrimPrefix, hpre, if_true]
  apply string_eq_of_data
  show ((managedNameFunc pfx n).data.drop (pfx ++ ":").data.length) = n.data
  rw [data_managedNameFunc]
  exact List.drop_left _ _

theorem managedNameFunc_inj (pfx a b : String) (h : managedNameFunc pfx a = managedNameFunc pfx b) :
    a = b := by
  have := congrArg (unmanagedNameFunc pfx) h
  rwa [unmanaged_managedNameFunc, unmanaged_managedNameFunc] at this

theorem managedAuthNameOf_eq (pfx uk : String) :
    managedAuthNameOf pfx uk = managedNameFunc pfx ("auth-" ++ hashString16 uk) := by
  apply string_eq_of_data
  simp [managedAuthNameOf, managedNameFunc, String.data_append]

theorem isManaged_managedAuthNameOf (pfx uk : String) :
    isManaged pfx (managedAuthNameOf pfx uk) = true := by
  rw [managedAuthNameOf_eq]
  exact isManaged_managedNameFunc _ _

theorem ne_managedNameFunc_of_not_isManaged (pfx k n : String)
    (h : isManaged pfx k = false) : k ≠ managedNameFunc pfx n := by
  intro he
  rw [he, isManaged_managedNameFunc] at h
  exact Bool.true_eq_false.mp h

theorem ne_managedAuthNameOf_of_not_isManaged (pfx k uk : String)
    (h : isManaged pfx k = false) : k ≠ managedAuthNameOf pfx uk := by
  rw [managedAuthNameOf_eq]
  exact ne_managedNameFunc_of_not_isManaged pfx k _ h

/-! ## Option token algebra -/

/-- First-wins choice on optional tokens. -/
def opOr (a b : Option String) : Option String :=
  match a with
  | some x => some x
  | none => b

theorem opOr_none (b : Option String) : opOr none b = b := rfl

theorem opOr_absorb (a b c : Option String) :
    opOr (opOr (opOr (opOr a b) c) b) c = opOr (opOr a b) c := by
  cases a <;> cases b <;> cases c <;> rfl

theorem opOr_self_absorb (a b : Option String) : opOr (opOr a b) b = opOr a b := by
  cases a <;> cases b <;> rfl

/-! ## Extensional equivalence of configurations (Go map equality) -/

/-- Extensional equality of possibly-`nil` Go config maps. -/
def cfgEquiv (a b : Option (List (String × String))) : Prop :=
  ∀ k, cfgLookup a k = cfgLookup b k

/-- Extensional equality of optional auth-provider blocks. -/
def apcEquiv : Option AuthProviderConfig → Option AuthProviderConfig → Prop
  | none, none => True
  | some x, some y => x.name = y.name ∧ cfgEquiv x.config y.config
  | _, _ => False

/-- Extensional equality of AuthInfo values. -/
def authInfoEquiv (x y : AuthInfo) : Prop :=
  x.clientCertificateData = y.clientCertificateData ∧ x.clientKeyData = y.clientKeyData ∧
    apcEquiv x.authProvider y.authProvider ∧ x.exec = y.exec

def optAuthEquiv : Option AuthInfo → Option AuthInfo → Prop
  | none, none => True
  | some a, some b => authInfoEquiv a b
  | _, _ => False

/-- Extensional equality of whole configurations: equal clusters and
contexts, and extensionally equal credentials, under every key. -/
def configEquiv (a b : Config) : Prop :=
  (∀ k, lookupM a.clusters k = lookupM b.clusters k) ∧
  (∀ k, optAuthEquiv (lookupM a.authInfos k) (lookupM b.authInfos k)) ∧
  (∀ k, lookupM a.contexts k = lookupM b.contexts k)

theorem apcEquiv_refl (x : Option AuthProviderConfig) : apcEquiv x x := by
  cases x with
  | none => trivial
  | some ap => exact ⟨rfl, fun _ => rfl⟩

theorem authInfoEquiv_refl (x : AuthInfo) : authInfoEquiv x x :=
  ⟨rfl, rfl, apcEquiv_refl _, rfl⟩

theorem optAuthEquiv_refl (x : Option AuthInfo) : optAuthEquiv x x := by
  cases x with
  | none => trivial
  | some a => exact authInfoEquiv_refl a

/-! ## Lemmas: authInfoEqual and the volatile-field merge -/

theorem mapsEqual_refl (l : List (String × String)) : mapsEqual l l = true := by
  simp [mapsEqual, List.all_eq_true]

theorem authInfoEqual_refl (a : AuthInfo) : authInfoEqual a a = true := by
  unfold authInfoEqual
  cases a.authProvider with
  | none => simp
  | some ap => simp [mapsEqual_refl]

theorem filter_setk_dropped {α : Type} (l : List (String × α)) (k : String) (v : α)
    (pred : String × α → Bool) (hk : ∀ w, pred (k, w) = false) :
    (setk l k v).filter pred = l.filter pred := by
  induction l with
  | nil => simp [setk, hk]
  | cons q t ih =>
    by_cases hq : q.1 = k
    · obtain ⟨q1, q2⟩ := q
      simp only at hq
      subst hq
      simp only [setk, if_pos rfl]
      simp [List.filter_cons, hk]
    · simp only [setk, if_neg hq]
      simp [List.filter_cons, ih]

theorem filterAPC_setTok (l : List (String × String)) (k : String) (t : Option String)
    (hk : k = "id-token" ∨ k = "refresh-token") :
    (setTok l k t).filter (fun p => p.1 != "id-token" && p.1 != "refresh-token") =
      l.filter (fun p => p.1 != "id-token" && p.1 != "refresh-token") := by
  cases t with
  | none => rfl
  | some v =>
    apply filter_setk_dropped
    intro w
    rcases hk with h | h <;> simp [h]

/-- The merged credential is `authInfoEqual` to the incoming one: the merge
only changes the volatile fields. -/
theorem authInfoEqual_mergeV (a la : AuthInfo) :
    authInfoEqual (mergeAuthInfoV a la) a = true := by
  unfold mergeAuthInfoV
  cases hs : a.authProvider with
  | none => cases la.authProvider <;> simp [authInfoEqual_refl]
  | some sap =>
    cases hl : la.authProvider with
    | none => simp [authInfoEqual_refl]
    | some lap =>
      have hbase : (baseCfg sap.config).filter
          (fun p => p.1 != "id-token" && p.1 != "refresh-token") =
            filterAuthProviderConfig sap.config := by
        cases sap.config <;> simp [baseCfg, filterAuthProviderConfig]
      have hfil : filterAuthProviderConfig (some (setTok
          (setTok (baseCfg sap.config) "id-token" (cfgLookup lap.config "id-token"))
          "refresh-token" (cfgLookup lap.config "refresh-token"))) =
          filterAuthProviderConfig sap.config := by
        simp only [filterAuthProviderConfig]
        rw [filterAPC_setTok _ _ _ (Or.inr rfl), filterAPC_setTok _ _ _ (Or.inl rfl), hbase]
        cases sap.config <;> rfl
      simp [authInfoEqual, hs, hfil, mapsEqual_refl]

/-! ## Token-state machine for the dedup credential chain

Several incoming credentials can share a managed auth name; the stored
value then evolves by repeated `mergeAuthInfoV`.  Only the volatile token
pair of the current value influences later merges, which the following
small machine captures. -/

abbrev TkSt := Option (Option String × Option String)

/-- The volatile-token state an optional stored credential contributes. -/
def tk : Option AuthInfo → TkSt
  | none => none
  | some x =>
    match x.authProvider with
    | none => none
    | some ap => some (cfgLookup ap.config "id-token", cfgLookup ap.config "refresh-token")

def gtk (σ : TkSt) : Option String × Option String := σ.getD (none, none)

def tok1E (p : String × AuthInfo) : Option String :=
  match p.2.authProvider with
  | none => none
  | some ap => cfgLookup ap.config "id-token"

def tok2E (p : String × AuthInfo) : Option String :=
  match p.2.authProvider with
  | none => none
  | some ap => cfgLookup ap.config "refresh-token"

def rsE (p : String × AuthInfo) : Bool := p.2.authProvider.isNone

def tkStep (σ : TkSt) (p : String × AuthInfo) : TkSt :=
  match p.2.authProvider with
  | none => none
  | some _ => some (opOr (gtk σ).1 (tok1E p), opOr (gtk σ).2 (tok2E p))

/-- The credential value stored after merging incoming credential `p` over
a current value with token state `σ`. -/
def bld (p : String × AuthInfo) (σ : TkSt) : AuthInfo :=
  match σ with
  | none => p.2
  | some (t, r) =>
    match p.2.authProvider with
    | none => p.2
    | some sap =>
      let cfg := setTok (setTok (baseCfg sap.config) "id-token" t) "refresh-token" r
      { p.2 with authProvider := some { sap with config := some cfg } }

theorem lookupM_baseCfg (c : Option (List (String × String))) (k : String) :
    lookupM (baseCfg c) k = cfgLookup c k := by
  cases c <;> rfl

theorem lookupM_setTok_self (l : List (String × String)) (k : String) (t : Option String) :
    lookupM (setTok l k t) k = opOr t (lookupM l k) := by
  cases t with
  | none => rfl
  | some v => exact lookupM_setk_self l k v

theorem lookupM_setTok_ne (l : List (String × String)) (k k2 : String) (t : Option String)
    (h : k ≠ k2) : lookupM (setTok l k t) k2 = lookupM l k2 := by
  cases t with
  | none => rfl
  | some v => exact lookupM_setk_ne l k k2 v h

theorem authValD_bld (p : String × AuthInfo) (cur : Option AuthInfo) :
    authValD p cur = bld p (tk cur) := by
  cases cur with
  | none => rfl
  | some ex =>
    simp only [authValD, mergeAuthInfoV, tk, bld]
    cases hl : ex.authProvider with
    | none => cases p.2.authProvider <;> rfl
    | some lap => cases p.2.authProvider <;> rfl

theorem tk_bld (p : String × AuthInfo) (σ : TkSt) :
    tk (some (bld p σ)) = tkStep σ p := by
  cases σ with
  | none =>
    simp only [bld, tk, tkStep]
    cases hp : p.2.authProvider with
    | none => rfl
    | some sap => simp [tok1E, tok2E, hp, gtk, opOr]
  | some tr =>
    obtain ⟨t, r⟩ := tr
    simp only [bld, tk, tkStep]
    cases hp : p.2.authProvider with
    | none => simp [hp]
    | some sap =>
      simp only []
      have h1 : lookupM (setTok (setTok (baseCfg sap.config) "id-token" t) "refresh-token" r)
          "id-token" = opOr t (cfgLookup sap.config "id-token") := by
        rw [lookupM_setTok_ne _ _ _ _ (by decide), lookupM_setTok_self, lookupM_baseCfg]
      have h2 : lookupM (setTok (setTok (baseCfg sap.config) "id-token" t) "refresh-token" r)
          "refresh-token" = opOr r (cfgLookup sap.config "refresh-token") := by
        rw [lookupM_setTok_self]
        rw [lookupM_setTok_ne _ _ _ _ (by decide), lookupM_baseCfg]
      simp [cfgLookup, h1, h2, gtk, tok1E, tok2E, hp]

def tkRun (σ : TkSt) (es : List (String × AuthInfo)) : TkSt :=
  es.foldl tkStep σ

theorem chainF_cons {α β : Type} (f : β → Option α → α) (v : Option α) (e : β) (t : List β) :
    chainF f v (e :: t) = chainF f (some (f e v)) t := rfl

theorem chainF_append {α β : Type} (f : β → Option α → α) (v : Option α) (ds : List β) (e : β) :
    chainF f v (ds ++ [e]) = some (f e (chainF f v ds)) := by
  simp [chainF, List.foldl_append]

theorem tk_chainF (v : Option AuthInfo) (es : List (String × AuthInfo)) :
    tk (chainF authValD v es) = tkRun (tk v) es := by
  induction es generalizing v with
  | nil => rfl
  | cons e t ih =>
    rw [chainF_cons, ih, authValD_bld, tk_bld]
    rfl

/-! ### Per-component token runs -/

def cStep (tok : String × AuthInfo → Option String) (t : Option String)
    (e : String × AuthInfo) : Option String :=
  if rsE e then none else opOr t (tok e)

def cRun (tok : String × AuthInfo → Option String) (t : Option String)
    (es : List (String × AuthInfo)) : Option String :=
  es.foldl (cStep tok) t

theorem gtk_tkStep (σ : TkSt) (e : String × AuthInfo) :
    gtk (tkStep σ e) = (cStep tok1E (gtk σ).1 e, cStep tok2E (gtk σ).2 e) := by
  cases hp : e.2.authProvider with
  | none => simp [tkStep, hp, cStep, rsE, gtk]
  | some sap => simp [tkStep, hp, cStep, rsE, gtk]

theorem gtk_tkRun (σ : TkSt) (es : List (String × AuthInfo)) :
    gtk (tkRun σ es) = (cRun tok1E (gtk σ).1 es, cRun tok2E (gtk σ).2 es) := by
  induction es generalizing σ with
  | nil => rfl
  | cons e t ih =>
    show gtk (tkRun (tkStep σ e) t) = _
    rw [ih, gtk_tkStep]
    rfl

theorem cRun_const_of_reset (tok : String × AuthInfo → Option String)
    (es : List (String × AuthInfo)) (ha : es.any rsE = true) (t t' : Option String) :
    cRun tok t es = cRun tok t' es := by
  induction es generalizing t t' with
  | nil => simp at ha
  | cons e u ih =>
    cases h : rsE e with
    | true =>
      show cRun tok (cStep tok t e) u = cRun tok (cStep tok t' e) u
      simp [cStep, h]
    | false =>
      have hu : u.any rsE = true := by
        simp only [List.any_cons, h, Bool.false_or] at ha
        exact ha
      exact ih hu _ _

def sumTok (tok : String × AuthInfo → Option String) (es : List (String × AuthInfo)) :
    Option String :=
  es.foldl (fun acc e => opOr acc (tok e)) none

theorem opOr_assoc (a b c : Option String) : opOr (opOr a b) c = opOr a (opOr b c) := by
  cases a <;> rfl

theorem opOr_none_right (a : Option String) : opOr a none = a := by
  cases a <;> rfl

theorem sumTok_from (tok : String × AuthInfo → Option String) (es : List (String × AuthInfo))
    (init : Option String) :
    es.foldl (fun acc e => opOr acc (tok e)) init = opOr init (sumTok tok es) := by
  induction es generalizing init with
  | nil => simp [sumTok, opOr_none_right]
  | cons e u ih =>
    show u.foldl _ (opOr init (tok e)) = _
    rw [ih, sumTok]
    show _ = opOr init (u.foldl _ (opOr none (tok e)))
    rw [ih (opOr none (tok e)), opOr_none _, opOr_assoc]
    rfl

theorem cRun_no_reset (tok : String × AuthInfo → Option String) (es : List (String × AuthInfo))
    (h : es.any rsE = false) (t : Option String) :
    cRun tok t es = opOr t (sumTok tok es) := by
  induction es generalizing t with
  | nil => simp [cRun, sumTok, opOr_none_right]
  | cons e u ih =>
    have he : rsE e = false := by
      simp only [List.any_cons, Bool.or_eq_false_iff] at h
      exact h.1
    have hu : u.any rsE = false := by
      simp only [List.any_cons, Bool.or_eq_false_iff] at h
      exact h.2
    show cRun tok (cStep tok t e) u = _
    rw [ih hu, cStep, if_neg (by simp [he])]
    rw [show sumTok tok (e :: u) = opOr (tok e) (sumTok tok u) by
      simp only [sumTok, List.foldl_cons]
      rw [sumTok_from, opOr_none]
      rfl]
    rw [opOr_assoc]

theorem cRun_idem (tok : String × AuthInfo → Option String) (ds : List (String × AuthInfo))
    (e : String × AuthInfo) (he : rsE e = false) (t0 : Option String) :
    opOr (cRun tok (cStep tok (cRun tok t0 ds) e) ds) (tok e) =
      opOr (cRun tok t0 ds) (tok e) := by
  cases ha : ds.any rsE with
  | true => rw [cRun_const_of_reset tok ds ha (cStep tok (cRun tok t0 ds) e) t0]
  | false =>
    rw [cRun_no_reset tok ds ha, cRun_no_reset tok ds ha]
    rw [cStep, if_neg (by simp [he])]
    exact opOr_absorb t0 (sumTok tok ds) (tok e)

/-! ### The stored value as a function of the token state -/

theorem bld_prov_none (e : String × AuthInfo) (σ : TkSt) (h : e.2.authProvider = none) :
    bld e σ = e.2 := by
  cases σ with
  | none => rfl
  | some tr =>
    obtain ⟨t, r⟩ := tr
    simp [bld, h]

theorem bld_cert (e : String × AuthInfo) (σ : TkSt) :
    (bld e σ).clientCertificateData = e.2.clientCertificateData := by
  cases σ with
  | none => rfl
  | some tr =>
    obtain ⟨t, r⟩ := tr
    cases h : e.2.authProvider <;> simp [bld, h]

theorem bld_key (e : String × AuthInfo) (σ : TkSt) :
    (bld e σ).clientKeyData = e.2.clientKeyData := by
  cases σ with
  | none => rfl
  | some tr =>
    obtain ⟨t, r⟩ := tr
    cases h : e.2.authProvider <;> simp [bld, h]

theorem bld_exec (e : String × AuthInfo) (σ : TkSt) : (bld e σ).exec = e.2.exec := by
  cases σ with
  | none => rfl
  | some tr =>
    obtain ⟨t, r⟩ := tr
    cases h : e.2.authProvider <;> simp [bld, h]

theorem bld_prov_some (e : String × AuthInfo) (sap : AuthProviderConfig)
    (he : e.2.authProvider = some sap) (σ : TkSt) :
    ∃ ap2, (bld e σ).authProvider = some ap2 ∧ ap2.name = sap.name ∧
      ∀ k, cfgLookup ap2.config k =
        if k = "id-token" then opOr (gtk σ).1 (cfgLookup sap.config k)
        else if k = "refresh-token" then opOr (gtk σ).2 (cfgLookup sap.config k)
        else cfgLookup sap.config k := by
  cases σ with
  | none =>
    refine ⟨sap, by simp [bld, he], rfl, ?_⟩
    intro k
    by_cases h1 : k = "id-token"
    · simp [h1, gtk, opOr]
    · by_cases h2 : k = "refresh-token" <;> simp [h1, h2, gtk, opOr]
  | some tr =>
    obtain ⟨t, r⟩ := tr
    refine ⟨{ name := sap.name, config := some (setTok (setTok (baseCfg sap.config) "id-token" t) "refresh-token" r) }, by simp [bld, he], rfl, ?_⟩
    intro k
    have hck : cfgLookup (some (setTok (setTok (baseCfg sap.config) "id-token" t) "refresh-token" r)) k = lookupM (setTok (setTok (baseCfg sap.config) "id-token" t) "refresh-token" r) k := rfl
    by_cases h1 : k = "id-token"
    · subst h1
      rw [hck, lookupM_setTok_ne _ _ _ _ (by decide), lookupM_setTok_self, lookupM_baseCfg,
        if_pos rfl]
      simp [gtk]
    · by_cases h2 : k = "refresh-token"
      · subst h2
        rw [hck, lookupM_setTok_self, lookupM_setTok_ne _ _ _ _ (by decide), lookupM_baseCfg,
          if_neg h1, if_pos rfl]
        simp [gtk]
      · rw [hck, lookupM_setTok_ne _ _ _ _ (fun hh => h2 hh.symm),
          lookupM_setTok_ne _ _ _ _ (fun hh => h1 hh.symm), lookupM_baseCfg,
          if_neg h1, if_neg h2]

theorem authInfoEquiv_bld (e : String × AuthInfo) (σ σ2 : TkSt)
    (h1 : opOr (gtk σ).1 (tok1E e) = opOr (gtk σ2).1 (tok1E e))
    (h2 : opOr (gtk σ).2 (tok2E e) = opOr (gtk σ2).2 (tok2E e)) :
    authInfoEquiv (bld e σ) (bld e σ2) := by
  cases he : e.2.authProvider with
  | none =>
    rw [bld_prov_none _ _ he, bld_prov_none _ _ he]
    exact authInfoEquiv_refl _
  | some sap =>
    obtain ⟨ap1, hap1, hn1, hl1⟩ := bld_prov_some e sap he σ
    obtain ⟨ap2, hap2, hn2, hl2⟩ := bld_prov_some e sap he σ2
    have ht1 : tok1E e = cfgLookup sap.config "id-token" := by simp [tok1E, he]
    have ht2 : tok2E e = cfgLookup sap.config "refresh-token" := by simp [tok2E, he]
    refine ⟨by rw [bld_cert, bld_cert], by rw [bld_key, bld_key], ?_, by rw [bld_exec, bld_exec]⟩
    rw [hap1, hap2]
    refine ⟨hn1.trans hn2.symm, ?_⟩
    intro k
    rw [hl1 k, hl2 k]
    by_cases hk1 : k = "id-token"
    · subst hk1
      simp only [if_pos rfl]
      rw [← ht1]
      exact h1
    · by_cases hk2 : k = "refresh-token"
      · subst hk2
        simp only [if_neg hk1, if_pos rfl]
        rw [← ht2]
        exact h2
      · simp [hk1, hk2]

/-- Replaying the same incoming-credential chain over its own result
changes the stored credential only up to extensional map equality. -/
theorem chainF_idem_dedup (es : List (String × AuthInfo)) (v : Option AuthInfo) :
    optAuthEquiv (chainF authValD (chainF authValD v es) es) (chainF authValD v es) := by
  rcases List.eq_nil_or_concat es with hnil | ⟨ds, e, hcat⟩
  · subst hnil
    exact optAuthEquiv_refl _
  · subst hcat
    rw [List.concat_eq_append]
    have hin : chainF authValD v (ds ++ [e]) = some (authValD e (chainF authValD v ds)) :=
      chainF_append _ _ _ _
    rw [hin]
    rw [chainF_append]
    show authInfoEquiv (authValD e (chainF authValD (some (authValD e (chainF authValD v ds))) ds))
      (authValD e (chainF authValD v ds))
    by_cases hrs : e.2.authProvider.isNone
    · have hpn : e.2.authProvider = none := Option.isNone_iff_eq_none.mp hrs
      rw [authValD_bld, authValD_bld, bld_prov_none _ _ hpn, bld_prov_none _ _ hpn]
      exact authInfoEquiv_refl _
    · have hrsF : rsE e = false := by
        simp only [Bool.not_eq_true] at hrs
        simpa [rsE] using hrs
      rw [authValD_bld e (chainF authValD (some (authValD e (chainF authValD v ds))) ds)]
      rw [authValD_bld e (chainF authValD v ds)]
      rw [tk_chainF, tk_chainF, tk_bld]
      apply authInfoEquiv_bld
      · have hA := gtk_tkRun (tkStep (tkRun (tk v) ds) e) ds
        have hB := gtk_tkRun (tkRun (tk v) ds) [e]
        have hC := gtk_tkRun (tk v) ds
        have hgA : (gtk (tkRun (tkStep (tkRun (tk v) ds) e) ds)).1 =
            cRun tok1E (gtk (tkStep (tkRun (tk v) ds) e)).1 ds := by rw [hA]
        rw [hgA, gtk_tkStep, hC]
        show opOr (cRun tok1E (cStep tok1E (cRun tok1E (gtk (tk v)).1 ds) e) ds) (tok1E e) =
          opOr (cRun tok1E (gtk (tk v)).1 ds) (tok1E e)
        exact cRun_idem tok1E ds e hrsF _
      · have hA := gtk_tkRun (tkStep (tkRun (tk v) ds) e) ds
        have hC := gtk_tkRun (tk v) ds
        have hgA : (gtk (tkRun (tkStep (tkRun (tk v) ds) e) ds)).2 =
            cRun tok2E (gtk (tkStep (tkRun (tk v) ds) e)).2 ds := by rw [hA]
        rw [hgA, gtk_tkStep, hC]
        show opOr (cRun tok2E (cStep tok2E (cRun tok2E (gtk (tk v)).2 ds) e) ds) (tok2E e) =
          opOr (cRun tok2E (gtk (tk v)).2 ds) (tok2E e)
        exact cRun_idem tok2E ds e hrsF _

/-! ## Per-key upsert analysis -/

/-- In a nodup-keyed map, a filter whose predicate pins down the key keeps
at most one entry. -/
theorem filter_nodup_single {α : Type} (l : List (String × α)) (hl : NodupKeys l)
    (p : String × α → Bool) (hp : ∀ a b, p a = true → p b = true → a.1 = b.1) :
    l.filter p = [] ∨ ∃ q, q ∈ l ∧ p q = true ∧ l.filter p = [q] := by
  induction l with
  | nil => exact Or.inl rfl
  | cons q t ih =>
    have hnd : ¬ q.1 ∈ t.map Prod.fst ∧ NodupKeys t := by simpa [NodupKeys] using hl
    cases hpq : p q with
    | true =>
      right
      refine ⟨q, by simp, hpq, ?_⟩
      have ht : t.filter p = [] := by
        rw [List.filter_eq_nil_iff]
        intro r hr hpr
        exact hnd.1 (hp r q (by simpa using hpr) hpq ▸ List.mem_map.mpr ⟨r, hr, rfl⟩)
      simp [List.filter_cons, hpq, ht]
    | false =>
      rw [List.filter_cons, hpq]
      rcases ih hnd.2 with h | ⟨r, hr, hpr, hfil⟩
      · exact Or.inl (by simpa using h)
      · exact Or.inr ⟨r, List.mem_cons_of_mem _ hr, hpr, by simpa using hfil⟩

theorem option_filter_idem {α : Type} (o : Option α) (p : α → Bool) :
    (o.filter p).filter p = o.filter p := by
  cases o with
  | none => rfl
  | some a =>
    by_cases h : p a <;> simp [Option.filter, h]

theorem labelsExtensionEqual_refl (x : List (String × Bytes)) :
    labelsExtensionEqual x x = true := by
  simp [labelsExtensionEqual]

theorem clusterVal_idem (p : String × Cluster) (v : Option Cluster) :
    clusterVal p (some (clusterVal p v)) = clusterVal p v := by
  cases v with
  | none => simp [clusterVal, labelsExtensionEqual_refl]
  | some lc =>
    by_cases hcond : lc.server = p.2.server ∧
        lc.certificateAuthorityData = p.2.certificateAuthorityData ∧
        labelsExtensionEqual lc.extensions p.2.extensions = true
    · simp [clusterVal, hcond]
    · simp [clusterVal, hcond, labelsExtensionEqual_refl]

theorem authValN_idem (p : String × AuthInfo) (v : Option AuthInfo) :
    authValN p (some (authValN p v)) = authValN p v := by
  cases v with
  | none => simp [authValN, authInfoEqual_refl]
  | some la =>
    by_cases he : authInfoEqual la p.2 = true
    · simp [authValN, he]
    · simp [authValN, he, authInfoEqual_mergeV]

theorem ctxVal_idem (pfx : String) (dedup : Bool) (srvA : List (String × AuthInfo))
    (p : String × Context) (v : Option Context) :
    ctxVal pfx dedup srvA p (some (ctxVal pfx dedup srvA p v)) = ctxVal pfx dedup srvA p v := by
  cases v with
  | none => simp [ctxVal]
  | some lc =>
    by_cases hcond : lc.cluster = managedNameFunc pfx p.2.cluster ∧
        lc.authInfo = (expectedAuthName pfx dedup srvA p.2.authInfo).getD "" ∧ lc.ns = p.2.ns
    · simp [ctxVal, hcond]
    · simp [ctxVal, hcond]

theorem ctxVal_cluster (pfx : String) (dedup : Bool) (srvA : List (String × AuthInfo))
    (p : String × Context) (v : Option Context) :
    (ctxVal pfx dedup srvA p v).cluster = managedNameFunc pfx p.2.cluster := by
  cases v with
  | none => rfl
  | some lc =>
    by_cases hcond : lc.cluster = managedNameFunc pfx p.2.cluster ∧
        lc.authInfo = (expectedAuthName pfx dedup srvA p.2.authInfo).getD "" ∧ lc.ns = p.2.ns
    · simp [ctxVal, hcond, hcond.1]
    · simp [ctxVal, hcond]

theorem ctxVal_authInfo (pfx : String) (dedup : Bool) (srvA : List (String × AuthInfo))
    (p : String × Context) (v : Option Context) :
    (ctxVal pfx dedup srvA p v).authInfo =
      (expectedAuthName pfx dedup srvA p.2.authInfo).getD "" := by
  cases v with
  | none => rfl
  | some lc =>
    by_cases hcond : lc.cluster = managedNameFunc pfx p.2.cluster ∧
        lc.authInfo = (expectedAuthName pfx dedup srvA p.2.authInfo).getD "" ∧ lc.ns = p.2.ns
    · simp [ctxVal, hcond, hcond.2.1]
    · simp [ctxVal, hcond]

theorem keepContext_congr (pfx : String) (dedup : Bool) (srv : Config)
    (amap : List (String × String)) (k : String) (c c2 : Context)
    (h1 : c.cluster = c2.cluster) (h2 : c.authInfo = c2.authInfo) :
    keepContext pfx dedup srv amap k c = keepContext pfx dedup srv amap k c2 := by
  simp [keepContext, h1, h2]

/-! ## Success and failure of mergeKubeconfig -/

theorem contextStep_error (pfx : String) (srvA : List (String × AuthInfo))
    (st : List (String × AuthInfo) × List (String × String) × List (String × Context))
    (q : String × Context) (hd : lookupM srvA q.2.authInfo = none) :
    contextStep pfx true srvA st q = Except.error
      ("AuthInfo " ++ q.2.authInfo ++ " referenced in context " ++ q.1 ++ " does not exist") := by
  simp [contextStep, hd, Bind.bind, Except.bind]

theorem contextStep_isOk (pfx : String) (dedup : Bool) (srvA : List (String × AuthInfo))
    (st : List (String × AuthInfo) × List (String × String) × List (String × Context))
    (q : String × Context) (hd : dedup = true → (lookupM srvA q.2.authInfo).isSome) :
    ∃ st2, contextStep pfx dedup srvA st q = Except.ok st2 := by
  cases dedup with
  | false => exact ⟨_, rfl⟩
  | true =>
    obtain ⟨sa, heq⟩ := Option.isSome_iff_exists.mp (hd rfl)
    cases hm : lookupM st.2.1 (generateAuthInfoKey sa) with
    | some mn =>
      apply Exists.intro
      simp only [contextStep, heq, hm, Bind.bind, Except.bind, Pure.pure, Except.pure]
      rfl
    | none =>
      apply Exists.intro
      simp only [contextStep, heq, hm, Bind.bind, Except.bind, Pure.pure, Except.pure]
      rfl

/-- `mergeKubeconfig` succeeds exactly when (in dedup mode) every incoming
context references an incoming AuthInfo; in non-dedup mode it always
succeeds. -/
theorem mergeKubeconfig_ok_iff (pfx : String) (dedup : Bool) (loc srv : Config) :
    (∃ out, mergeKubeconfig pfx dedup loc srv = Except.ok out) ↔
      (∀ q ∈ srv.contexts, dedup = true → (lookupM srv.authInfos q.2.authInfo).isSome) := by
  constructor
  · intro hok
    intro q hq hd
    subst hd
    by_contra hnone
    have hd2 : lookupM srv.authInfos q.2.authInfo = none := by
      cases h : lookupM srv.authInfos q.2.authInfo with
      | none => rfl
      | some _ => rw [h] at hnone; simp at hnone
    obtain ⟨out, hout⟩ := hok
    have hauth : srv.authInfos.foldlM (authInfoStep pfx true) (loc.authInfos, []) =
        Except.ok (srv.authInfos.foldl (stepF (authKeyD pfx) authValD) loc.authInfos,
          srv.authInfos.foldl (amapStep pfx) []) := by
      rw [foldlM_ok _ _ _ (fun s e _ => authInfoStep_ok pfx true s e) _, foldl_authV_dedup]
    have hiff := foldlM_isOk_iff (contextStep pfx true srv.authInfos)
      (fun r => lookupM srv.authInfos r.2.authInfo = none) srv.contexts
      (fun s e _ hP => ⟨_, contextStep_error pfx srv.authInfos s e hP⟩)
      (fun s e _ hP => contextStep_isOk pfx true srv.authInfos s e
        (fun _ => Option.ne_none_iff_isSome.mp hP))
      (srv.authInfos.foldl (stepF (authKeyD pfx) authValD) loc.authInfos,
        srv.authInfos.foldl (amapStep pfx) [], loc.contexts)
    have hnoOk : ¬ ∃ st, srv.contexts.foldlM (contextStep pfx true srv.authInfos)
        (srv.authInfos.foldl (stepF (authKeyD pfx) authValD) loc.authInfos,
          srv.authInfos.foldl (amapStep pfx) [], loc.contexts) = Except.ok st :=
      fun hex => (hiff.mp hex) q hq hd2
    cases hfold : srv.contexts.foldlM (contextStep pfx true srv.authInfos)
        (srv.authInfos.foldl (stepF (authKeyD pfx) authValD) loc.authInfos,
          srv.authInfos.foldl (amapStep pfx) [], loc.contexts) with
    | ok st => exact hnoOk ⟨st, hfold⟩
    | error msg =>
      simp only [mergeKubeconfig, hauth, hfold, Bind.bind, Except.bind] at hout
      exact Except.noConfusion hout
  · intro h
    exact ⟨_, mergeKubeconfig_ok pfx dedup loc srv h⟩

/-! ## Idempotence, per collection -/

theorem option_filter_const_true {α : Type} (o : Option α) (p : α → Bool)
    (h : ∀ v, p v = true) : o.filter p = o := by
  cases o <;> simp [Option.filter, h]

theorem chainF_nil {α β : Type} (f : β → Option α → α) (v : Option α) : chainF f v [] = v := rfl

theorem chainF_single {α β : Type} (f : β → Option α → α) (v : Option α) (e : β) :
    chainF f v [e] = some (f e v) := rfl

theorem keepCluster_managed_mem (pfx : String) (srvC : List (String × Cluster))
    (p : String × Cluster) (hmem : p ∈ srvC) :
    keepCluster pfx srvC (managedNameFunc pfx p.1) = true := by
  simp only [keepCluster, isManaged_managedNameFunc, if_true, unmanaged_managedNameFunc]
  exact lookupM_isSome_of_mem _ _ hmem

theorem clusters_idem (pfx : String) (srvC locC : List (String × Cluster))
    (hsrv : NodupKeys srvC) (hloc : NodupKeys locC) (k : String) :
    lookupM ((srvC.foldl (stepF (clusterKey pfx) clusterVal)
        ((srvC.foldl (stepF (clusterKey pfx) clusterVal) locC).filter
          fun q => keepCluster pfx srvC q.1)).filter
        fun q => keepCluster pfx srvC q.1) k =
      lookupM ((srvC.foldl (stepF (clusterKey pfx) clusterVal) locC).filter
        fun q => keepCluster pfx srvC q.1) k := by
  have hn1 : NodupKeys (srvC.foldl (stepF (clusterKey pfx) clusterVal) locC) :=
    nodupKeys_foldl_stepF _ _ _ _ hloc
  have hnr1 : NodupKeys ((srvC.foldl (stepF (clusterKey pfx) clusterVal) locC).filter
      fun q => keepCluster pfx srvC q.1) := nodupKeys_filter _ _ hn1
  have hn2 : NodupKeys (srvC.foldl (stepF (clusterKey pfx) clusterVal)
      ((srvC.foldl (stepF (clusterKey pfx) clusterVal) locC).filter
        fun q => keepCluster pfx srvC q.1)) := nodupKeys_foldl_stepF _ _ _ _ hnr1
  rw [lookupM_filter _ _ _ hn2, lookupM_filter _ _ _ hn1, lookupM_foldl_stepF,
    lookupM_foldl_stepF, lookupM_filter _ _ _ hn1, lookupM_foldl_stepF]
  have hp : ∀ a b : String × Cluster, (clusterKey pfx a == k) = true →
      (clusterKey pfx b == k) = true → a.1 = b.1 := by
    intro a b ha hb
    have ha2 : managedNameFunc pfx a.1 = k := eq_of_beq ha
    have hb2 : managedNameFunc pfx b.1 = k := eq_of_beq hb
    exact managedNameFunc_inj pfx _ _ (ha2.trans hb2.symm)
  rcases filter_nodup_single srvC hsrv (fun e => clusterKey pfx e == k) hp with
    hes | ⟨p, hpmem, hpk, hes⟩
  · rw [hes, chainF_nil, chainF_nil, option_filter_idem]
  · have hk : managedNameFunc pfx p.1 = k := eq_of_beq hpk
    have hkeep : keepCluster pfx srvC k = true := hk ▸ keepCluster_managed_mem pfx srvC p hpmem
    rw [hes]
    simp only [chainF_single, option_filter_const_true _ _ (fun _ => hkeep)]
    rw [clusterVal_idem]

theorem option_filter_const_false {α : Type} (o : Option α) (p : α → Bool)
    (h : ∀ v, p v = false) : o.filter p = none := by
  cases o <;> simp [Option.filter, h]

theorem option_filter_some {α : Type} (w : α) (p : α → Bool) :
    (some w).filter p = if p w then some w else none := by
  by_cases h : p w <;> simp [Option.filter, h]

theorem contexts_idem (pfx : String) (dedup : Bool) (srv : Config)
    (locX : List (String × Context)) (amap : List (String × String))
    (hsrv : NodupKeys srv.contexts) (hloc : NodupKeys locX) (k : String) :
    lookupM ((srv.contexts.foldl (stepF Prod.fst (ctxVal pfx dedup srv.authInfos))
        ((srv.contexts.foldl (stepF Prod.fst (ctxVal pfx dedup srv.authInfos)) locX).filter
          fun q => keepContext pfx dedup srv amap q.1 q.2)).filter
        fun q => keepContext pfx dedup srv amap q.1 q.2) k =
      lookupM ((srv.contexts.foldl (stepF Prod.fst (ctxVal pfx dedup srv.authInfos)) locX).filter
        fun q => keepContext pfx dedup srv amap q.1 q.2) k := by
  have hn1 : NodupKeys (srv.contexts.foldl (stepF Prod.fst (ctxVal pfx dedup srv.authInfos)) locX) :=
    nodupKeys_foldl_stepF _ _ _ _ hloc
  have hnr1 : NodupKeys ((srv.contexts.foldl (stepF Prod.fst (ctxVal pfx dedup srv.authInfos))
      locX).filter fun q => keepContext pfx dedup srv amap q.1 q.2) := nodupKeys_filter _ _ hn1
  have hn2 : NodupKeys (srv.contexts.foldl (stepF Prod.fst (ctxVal pfx dedup srv.authInfos))
      ((srv.contexts.foldl (stepF Prod.fst (ctxVal pfx dedup srv.authInfos)) locX).filter
        fun q => keepContext pfx dedup srv amap q.1 q.2)) := nodupKeys_foldl_stepF _ _ _ _ hnr1
  rw [lookupM_filter _ _ _ hn2, lookupM_foldl_stepF, lookupM_filter _ _ _ hn1,
    lookupM_foldl_stepF]
  have hp : ∀ a b : String × Context, (Prod.fst a == k) = true → (Prod.fst b == k) = true →
      a.1 = b.1 := by
    intro a b ha hb
    exact (eq_of_beq ha).trans (eq_of_beq hb).symm
  rcases filter_nodup_single srv.contexts hsrv (fun e => Prod.fst e == k) hp with
    hes | ⟨p, hpmem, hpk, hes⟩
  · rw [hes, chainF_nil, chainF_nil, option_filter_idem]
  · have hk : p.1 = k := eq_of_beq hpk
    rw [hes, chainF_single, chainF_single]
    have hcongr : keepContext pfx dedup srv amap k (ctxVal pfx dedup srv.authInfos p none) =
        keepContext pfx dedup srv amap k
          (ctxVal pfx dedup srv.authInfos p (lookupM locX k)) :=
      keepContext_congr _ _ _ _ _ _ _
        ((ctxVal_cluster _ _ _ _ _).trans (ctxVal_cluster _ _ _ _ _).symm)
        ((ctxVal_authInfo _ _ _ _ _).trans (ctxVal_authInfo _ _ _ _ _).symm)
    by_cases hkeep : keepContext pfx dedup srv amap k
        (ctxVal pfx dedup srv.authInfos p (lookupM locX k)) = true
    · simp [option_filter_some, hkeep, ctxVal_idem]
    · simp [option_filter_some, hkeep, hcongr]

theorem keepAuthInfo_nondedup_mem (pfx : String) (amap : List (String × String))
    (srvA : List (String × AuthInfo)) (p : String × AuthInfo) (hmem : p ∈ srvA) :
    keepAuthInfo pfx false amap srvA (managedNameFunc pfx p.1) = true := by
  simp only [keepAuthInfo, isManaged_managedNameFunc, if_true, unmanaged_managedNameFunc]
  rw [if_neg (by simp)]
  exact lookupM_isSome_of_mem _ _ hmem

theorem auth_idem_nondedup (pfx : String) (srvA locA : List (String × AuthInfo))
    (amap : List (String × String))
    (hsrv : NodupKeys srvA) (hloc : NodupKeys locA) (k : String) :
    lookupM ((srvA.foldl (stepF (authKeyN pfx) authValN)
        ((srvA.foldl (stepF (authKeyN pfx) authValN) locA).filter
          fun q => keepAuthInfo pfx false amap srvA q.1)).filter
        fun q => keepAuthInfo pfx false amap srvA q.1) k =
      lookupM ((srvA.foldl (stepF (authKeyN pfx) authValN) locA).filter
        fun q => keepAuthInfo pfx false amap srvA q.1) k := by
  have hn1 : NodupKeys (srvA.foldl (stepF (authKeyN pfx) authValN) locA) :=
    nodupKeys_foldl_stepF _ _ _ _ hloc
  have hnr1 : NodupKeys ((srvA.foldl (stepF (authKeyN pfx) authValN) locA).filter
      fun q => keepAuthInfo pfx false amap srvA q.1) := nodupKeys_filter _ _ hn1
  have hn2 : NodupKeys (srvA.foldl (stepF (authKeyN pfx) authValN)
      ((srvA.foldl (stepF (authKeyN pfx) authValN) locA).filter
        fun q => keepAuthInfo pfx false amap srvA q.1)) := nodupKeys_foldl_stepF _ _ _ _ hnr1
  rw [lookupM_filter _ _ _ hn2, lookupM_foldl_stepF, lookupM_filter _ _ _ hn1,
    lookupM_foldl_stepF]
  have hp : ∀ a b : String × AuthInfo, (authKeyN pfx a == k) = true →
      (authKeyN pfx b == k) = true → a.1 = b.1 := by
    intro a b ha hb
    exact managedNameFunc_inj pfx _ _ ((eq_of_beq ha).trans (eq_of_beq hb).symm)
  rcases filter_nodup_single srvA hsrv (fun e => authKeyN pfx e == k) hp with
    hes | ⟨p, hpmem, hpk, hes⟩
  · rw [hes, chainF_nil, chainF_nil, option_filter_idem]
  · have hk : managedNameFunc pfx p.1 = k := eq_of_beq hpk
    have hkeep : keepAuthInfo pfx false amap srvA k = true :=
      hk ▸ keepAuthInfo_nondedup_mem pfx amap srvA p hpmem
    rw [hes]
    simp only [chainF_single, option_filter_const_true _ _ (fun _ => hkeep)]
    rw [authValN_idem]

theorem keepAuthInfo_dedup_mem (pfx : String) (srvA : List (String × AuthInfo))
    (p : String × AuthInfo) (hmem : p ∈ srvA) :
    keepAuthInfo pfx true (srvA.foldl (amapStep pfx) []) srvA
      (managedAuthNameOf pfx (generateAuthInfoKey p.2)) = true := by
  simp only [keepAuthInfo, isManaged_managedAuthNameOf, if_true]
  have hl : lookupM (srvA.foldl (amapStep pfx) []) (generateAuthInfoKey p.2) =
      some (managedAuthNameOf pfx (generateAuthInfoKey p.2)) := by
    rw [lookupM_amapFold]
    rw [if_pos (List.any_eq_true.mpr ⟨p, hmem, by simp⟩)]
  have hmem2 := mem_of_lookupM_eq_some _ _ _ hl
  exact List.any_eq_true.mpr ⟨_, hmem2, by simp⟩

theorem auth_idem_dedup (pfx : String) (srvA locA : List (String × AuthInfo))
    (hsrv : NodupKeys srvA) (hloc : NodupKeys locA) (k : String) :
    optAuthEquiv
      (lookupM ((srvA.foldl (stepF (authKeyD pfx) authValD)
        ((srvA.foldl (stepF (authKeyD pfx) authValD) locA).filter
          fun q => keepAuthInfo pfx true (srvA.foldl (amapStep pfx) []) srvA q.1)).filter
        fun q => keepAuthInfo pfx true (srvA.foldl (amapStep pfx) []) srvA q.1) k)
      (lookupM ((srvA.foldl (stepF (authKeyD pfx) authValD) locA).filter
        fun q => keepAuthInfo pfx true (srvA.foldl (amapStep pfx) []) srvA q.1) k) := by
  have hn1 : NodupKeys (srvA.foldl (stepF (authKeyD pfx) authValD) locA) :=
    nodupKeys_foldl_stepF _ _ _ _ hloc
  have hnr1 : NodupKeys ((srvA.foldl (stepF (authKeyD pfx) authValD) locA).filter
      fun q => keepAuthInfo pfx true (srvA.foldl (amapStep pfx) []) srvA q.1) :=
    nodupKeys_filter _ _ hn1
  have hn2 : NodupKeys (srvA.foldl (stepF (authKeyD pfx) authValD)
      ((srvA.foldl (stepF (authKeyD pfx) authValD) locA).filter
        fun q => keepAuthInfo pfx true (srvA.foldl (amapStep pfx) []) srvA q.1)) :=
    nodupKeys_foldl_stepF _ _ _ _ hnr1
  rw [lookupM_filter _ _ _ hn2, lookupM_foldl_stepF, lookupM_filter _ _ _ hn1,
    lookupM_foldl_stepF]
  by_cases hkeep : keepAuthInfo pfx true (srvA.foldl (amapStep pfx) []) srvA k = true
  · simp only [option_filter_const_true _ _ (fun _ => hkeep)]
    exact chainF_idem_dedup _ _
  · have hes : srvA.filter (fun e => authKeyD pfx e == k) = [] := by
      rw [List.filter_eq_nil_iff]
      intro p hpmem hpk
      have hk : managedAuthNameOf pfx (generateAuthInfoKey p.2) = k := by
        simpa [authKeyD] using hpk
      exact hkeep (hk ▸ keepAuthInfo_dedup_mem pfx srvA p hpmem)
    have hfalse : keepAuthInfo pfx true (srvA.foldl (amapStep pfx) []) srvA k = false := by
      cases h : keepAuthInfo pfx true (srvA.foldl (amapStep pfx) []) srvA k with
      | true => exact absurd h hkeep
      | false => rfl
    simp only [hes, chainF_nil, option_filter_const_false _ _ (fun _ => hfalse)]
    trivial

/-! ## Idempotence of the whole reconciliation -/

theorem mergeResult_clusters (pfx : String) (dedup : Bool) (loc srv : Config) :
    (mergeResult pfx dedup loc srv).clusters =
      (srv.clusters.foldl (stepF (clusterKey pfx) clusterVal) loc.clusters).filter
        fun q => keepCluster pfx srv.clusters q.1 := rfl

theorem mergeResult_auth (pfx : String) (dedup : Bool) (loc srv : Config) :
    (mergeResult pfx dedup loc srv).authInfos =
      (if dedup then srv.authInfos.foldl (stepF (authKeyD pfx) authValD) loc.authInfos
       else srv.authInfos.foldl (stepF (authKeyN pfx) authValN) loc.authInfos).filter
        fun q => keepAuthInfo pfx dedup (amapFinal pfx dedup srv) srv.authInfos q.1 := rfl

theorem mergeResult_ctx (pfx : String) (dedup : Bool) (loc srv : Config) :
    (mergeResult pfx dedup loc srv).contexts =
      (srv.contexts.foldl (stepF Prod.fst (ctxVal pfx dedup srv.authInfos)) loc.contexts).filter
        fun q => keepContext pfx dedup srv (amapFinal pfx dedup srv) q.1 q.2 := rfl

theorem optAuthEquiv_of_eq (a b : Option AuthInfo) (h : a = b) : optAuthEquiv a b := by
  subst h
  exact optAuthEquiv_refl _

/-- C3: reconciliation is idempotent in both dedup and non-dedup mode: when
a first run succeeds, a second run with the same incoming snapshot and the
first run's output as the local configuration succeeds and changes nothing
— its output equals the first run's output as a configuration (Go map
equality under every key; a credential whose possibly-`nil` config map
holds the same entries is the same credential). -/
theorem mergeKubeconfig_idem (pfx : String) (dedup : Bool) (loc srv : Config)
    (hwf1 : NodupKeys loc.clusters) (hwf2 : NodupKeys loc.authInfos)
    (hwf3 : NodupKeys loc.contexts) (hwfs1 : NodupKeys srv.clusters)
    (hwfs2 : NodupKeys srv.authInfos) (hwfs3 : NodupKeys srv.contexts)
    (out : Config) (hok : mergeKubeconfig pfx dedup loc srv = Except.ok out) :
    ∃ out2, mergeKubeconfig pfx dedup out srv = Except.ok out2 ∧ configEquiv out2 out := by
  have hcond : ∀ q ∈ srv.contexts, dedup = true → (lookupM srv.authInfos q.2.authInfo).isSome :=
    (mergeKubeconfig_ok_iff pfx dedup loc srv).mp ⟨out, hok⟩
  have hout : out = mergeResult pfx dedup loc srv := by
    rw [mergeKubeconfig_ok pfx dedup loc srv hcond] at hok
    exact (Except.ok.inj hok).symm
  subst hout
  refine ⟨mergeResult pfx dedup (mergeResult pfx dedup loc srv) srv,
    mergeKubeconfig_ok pfx dedup (mergeResult pfx dedup loc srv) srv hcond, ?_, ?_, ?_⟩
  · intro k
    rw [mergeResult_clusters pfx dedup (mergeResult pfx dedup loc srv) srv,
      mergeResult_clusters pfx dedup loc srv]
    exact clusters_idem pfx srv.clusters loc.clusters hwfs1 hwf1 k
  · intro k
    rw [mergeResult_auth pfx dedup (mergeResult pfx dedup loc srv) srv,
      mergeResult_auth pfx dedup loc srv]
    cases dedup with
    | true =>
      simp only [if_true, amapFinal]
      exact auth_idem_dedup pfx srv.authInfos loc.authInfos hwfs2 hwf2 k
    | false =>
      simp only [Bool.false_eq_true, if_false, amapFinal]
      exact optAuthEquiv_of_eq _ _ (auth_idem_nondedup pfx srv.authInfos loc.authInfos [] hwfs2 hwf2 k)
  · intro k
    rw [mergeResult_ctx pfx dedup (mergeResult pfx dedup loc srv) srv,
      mergeResult_ctx pfx dedup loc srv]
    exact contexts_idem pfx dedup srv loc.contexts (amapFinal pfx dedup srv) hwfs3 hwf3 k

/-! ## Volatile-token accessors and sample configurations -/

/-- The id-token a credential's auth-provider config holds. -/
def idTokenOf (x : AuthInfo) : Option String :=
  match x.authProvider with
  | none => none
  | some ap => cfgLookup ap.config "id-token"

/-- The refresh-token a credential's auth-provider config holds. -/
def refreshTokenOf (x : AuthInfo) : Option String :=
  match x.authProvider with
  | none => none
  | some ap => cfgLookup ap.config "refresh-token"

def emptyConfig : Config := { clusters := [], authInfos := [], contexts := [] }

def apcAB : AuthProviderConfig :=
  { name := "oidc"
    config := some [("client-id", "cid"), ("extra-scopes", "a,b"), ("id-token", "tokA")] }

def apcBA : AuthProviderConfig :=
  { name := "oidc"
    config := some [("client-id", "cid"), ("extra-scopes", "b,a"), ("id-token", "tokB")] }

/-- Incoming parameter-based credential with scopes `a,b` and token `tokA`. -/
def authScopesAB : AuthInfo :=
  { clientCertificateData := []
    clientKeyData := []
    authProvider := some apcAB
    exec := none }

/-- Same stable fields as `authScopesAB` except scope order and token. -/
def authScopesBA : AuthInfo :=
  { clientCertificateData := []
    clientKeyData := []
    authProvider := some apcBA
    exec := none }

def clusterS : Cluster := { server := "https://s", certificateAuthorityData := [], extensions := [] }

def srvScopeOrder : Config :=
  { clusters := [("c1", clusterS)]
    authInfos := [("u1", authScopesAB), ("u2", authScopesBA)]
    contexts := [("p1", { cluster := "c1", authInfo := "u1", ns := "", extensions := [] }),
                 ("p2", { cluster := "c1", authInfo := "u2", ns := "", extensions := [] })] }

/-- A minimal certificate-based credential. -/
def authPlain : AuthInfo :=
  { clientCertificateData := [1], clientKeyData := [2], authProvider := none, exec := none }

def ctxFoo : Context := { cluster := "x", authInfo := "y", ns := "myns", extensions := [] }

/-- Local config owning an unprefixed context named `foo`. -/
def locC4 : Config :=
  { clusters := [("x", clusterS)]
    authInfos := [("y", authPlain)]
    contexts := [("foo", ctxFoo)] }

/-- Server config whose context name collides with the local `foo`. -/
def srvC4 : Config :=
  { clusters := [("c1", clusterS)]
    authInfos := [("u1", authPlain)]
    contexts := [("foo", { cluster := "c1", authInfo := "u1", ns := "", extensions := [] })] }

/-- Server config whose only context references an absent credential. -/
def srvDangling : Config :=
  { clusters := [("c1", clusterS)]
    authInfos := []
    contexts := [("p1", { cluster := "c1", authInfo := "missing", ns := "", extensions := [] })] }

def ctxGone : Context :=
  { cluster := "cloudctl:old", authInfo := "cloudctl:oldauth", ns := "", extensions := [] }

/-- Local config owning a managed-looking context under an unprefixed key. -/
def locC8 : Config :=
  { clusters := [], authInfos := [], contexts := [("gone", ctxGone)] }

def execCfgA : ExecConfig :=
  { apiVersion := "client.authentication.k8s.io/v1beta1", command := "kubelogin"
    args := ["get-token"] }

def execCfgB : ExecConfig :=
  { apiVersion := "client.authentication.k8s.io/v1beta1", command := "other-helper"
    args := ["get-token"] }

/-- Exec-based credential running `kubelogin`. -/
def authExecA : AuthInfo :=
  { clientCertificateData := [], clientKeyData := [], authProvider := none
    exec := some execCfgA }

/-- Exec-based credential running `other-helper`. -/
def authExecB : AuthInfo :=
  { clientCertificateData := [], clientKeyData := [], authProvider := none
    exec := some execCfgB }

def apcIssuer1 : AuthProviderConfig :=
  { name := "oidc", config := some [("idp-issuer-url", "https://issuer-one"), ("client-id", "cid")] }

def apcIssuer2 : AuthProviderConfig :=
  { name := "oidc", config := some [("idp-issuer-url", "https://issuer-two"), ("client-id", "cid")] }

/-- Parameter-based credential pointing at issuer one. -/
def authIssuer1 : AuthInfo :=
  { clientCertificateData := [], clientKeyData := [], authProvider := some apcIssuer1
    exec := none }

/-- Same credential except for the issuer URL. -/
def authIssuer2 : AuthInfo :=
  { clientCertificateData := [], clientKeyData := [], authProvider := some apcIssuer2
    exec := none }

def apcNil : AuthProviderConfig := { name := "oidc", config := none }

/-- Incoming credential whose auth-provider config map is `nil`. -/
def authNilCfg : AuthInfo :=
  { clientCertificateData := [], clientKeyData := [], authProvider := some apcNil
    exec := none }

/-! ## The claims -/

/-- C7: `authInfoEqual` never inspects the `exec` block, so it returns
`true` on two exec-based credentials whose commands differ — contradicting
the claimed equivalence predicate (false for exec-based credentials with
different commands) and the repository's own `TestAuthInfoEqual_ExecBased`
expectation. -/
theorem authInfoEqual_ignores_exec :
    authInfoEqual authExecA authExecB = true ∧
      authExecA.exec.map ExecConfig.command = some "kubelogin" ∧
      authExecB.exec.map ExecConfig.command = some "other-helper" ∧
      authExecA.exec ≠ authExecB.exec := by
  decide

/-- C6 counterexample: two parameter-based credentials that differ only in
their `idp-issuer-url` receive the same canonical key — the issuer URL is
not an input of `generateAuthInfoKey`. -/
theorem generateAuthInfoKey_ignores_issuer :
    cfgGet apcIssuer1.config "idp-issuer-url" ≠ cfgGet apcIssuer2.config "idp-issuer-url" ∧
      authIssuer1 ≠ authIssuer2 ∧
      generateAuthInfoKey authIssuer1 = generateAuthInfoKey authIssuer2 := by
  decide

/-- C6 (amended): the canonical key of a parameter-based credential is
built from exactly the `client-id`, `client-secret`,
`auth-request-extra-params` and `extra-scopes` config fields (not the
issuer URL): two credentials agreeing on those four fields — whatever
their `id-token`, `refresh-token` or issuer URL — have equal keys, and two
credentials agreeing on the last three but differing in `client-id` have
different keys. -/
theorem generateAuthInfoKey_exact_fields (a b : AuthInfo)
    (ap bp : AuthProviderConfig) (ha : a.authProvider = some ap) (hb : b.authProvider = some bp)
    (h2 : cfgGet ap.config "client-secret" = cfgGet bp.config "client-secret")
    (h3 : cfgGet ap.config "auth-request-extra-params" =
      cfgGet bp.config "auth-request-extra-params")
    (h4 : cfgGet ap.config "extra-scopes" = cfgGet bp.config "extra-scopes") :
    (cfgGet ap.config "client-id" = cfgGet bp.config "client-id" →
      generateAuthInfoKey a = generateAuthInfoKey b) ∧
    (cfgGet ap.config "client-id" ≠ cfgGet bp.config "client-id" →
      generateAuthInfoKey a ≠ generateAuthInfoKey b) := by
  constructor
  · intro h1
    simp [generateAuthInfoKey, ha, hb, h1, h2, h3, h4]
  · intro h1 hkey
    apply h1
    simp only [generateAuthInfoKey, ha, hb] at hkey
    rw [h2, h3, h4] at hkey
    have hd := congrArg String.data hkey
    simp only [String.data_append, List.append_assoc] at hd
    have hd2 := List.append_cancel_left hd
    have hd3 := List.append_cancel_right hd2
    exact string_eq_of_data _ _ hd3

def apcCid2 : AuthProviderConfig :=
  { name := "oidc"
    config := some [("client-id", "cid2"), ("extra-scopes", "a,b"), ("id-token", "tokC")] }

/-- Same as `authScopesAB` except for the `client-id`. -/
def authCid2 : AuthInfo :=
  { clientCertificateData := []
    clientKeyData := []
    authProvider := some apcCid2
    exec := none }

/-- Witness for the amended C6 theorem at concrete credentials. -/
theorem generateAuthInfoKey_exact_fields_witness :
    generateAuthInfoKey authIssuer1 = generateAuthInfoKey authIssuer2 ∧
      generateAuthInfoKey authScopesAB ≠ generateAuthInfoKey authCid2 := by
  constructor
  · exact (generateAuthInfoKey_exact_fields authIssuer1 authIssuer2 apcIssuer1 apcIssuer2
      rfl rfl (by decide) (by decide) (by decide)).1 (by decide)
  · exact (generateAuthInfoKey_exact_fields authScopesAB authCid2 apcAB apcCid2
      rfl rfl (by decide) (by decide) (by decide)).2 (by decide)

/-- C10: when the incoming credential's auth-provider block is present but
its config map is `nil`, and the local credential holds an `id-token` or
`refresh-token`, `mergeAuthInfo` does not fail (the `nil` map is
initialised before the token assignments) and the merged credential
carries the local token values. -/
theorem mergeAuthInfo_nil_config_total (sa la : AuthInfo) (sap lap : AuthProviderConfig)
    (hs : sa.authProvider = some sap) (hcfg : sap.config = none)
    (hl : la.authProvider = some lap)
    (htok : idTokenOf la ≠ none ∨ refreshTokenOf la ≠ none) :
    ∃ m, mergeAuthInfo sa (some la) = Except.ok m ∧
      idTokenOf m = idTokenOf la ∧ refreshTokenOf m = refreshTokenOf la := by
  refine ⟨mergeAuthInfoV sa la, mergeAuthInfo_ok sa la, ?_, ?_⟩
  · have hm : idTokenOf (mergeAuthInfoV sa la) =
        lookupM (setTok (setTok (baseCfg sap.config) "id-token"
          (cfgLookup lap.config "id-token")) "refresh-token"
          (cfgLookup lap.config "refresh-token")) "id-token" := by
      simp [mergeAuthInfoV, hs, hl, idTokenOf, cfgLookup]
    rw [hm, lookupM_setTok_ne _ _ _ _ (by decide), lookupM_setTok_self, lookupM_baseCfg, hcfg]
    simp [idTokenOf, hl, cfgLookup, opOr_none_right]
  · have hm : refreshTokenOf (mergeAuthInfoV sa la) =
        lookupM (setTok (setTok (baseCfg sap.config) "id-token"
          (cfgLookup lap.config "id-token")) "refresh-token"
          (cfgLookup lap.config "refresh-token")) "refresh-token" := by
      simp [mergeAuthInfoV, hs, hl, refreshTokenOf, cfgLookup]
    rw [hm, lookupM_setTok_self, lookupM_setTok_ne _ _ _ _ (by decide), lookupM_baseCfg, hcfg]
    simp [refreshTokenOf, hl, cfgLookup, opOr_none_right]

/-- Witness for the C10 theorem at concrete credentials. -/
theorem mergeAuthInfo_nil_config_total_witness :
    ∃ m, mergeAuthInfo authNilCfg (some authScopesAB) = Except.ok m ∧
      idTokenOf m = idTokenOf authScopesAB ∧
      refreshTokenOf m = refreshTokenOf authScopesAB :=
  mergeAuthInfo_nil_config_total authNilCfg authScopesAB apcNil apcAB rfl rfl rfl
    (Or.inl (by decide))

/-- The non-dedup reconciliation output for `srvDangling` from an empty
local configuration. -/
def outDangling : Config :=
  { clusters := [("cloudctl:c1", clusterS)]
    authInfos := []
    contexts := [("p1", { cluster := "cloudctl:c1", authInfo := "cloudctl:missing", ns := ""
                          extensions := [] })] }

/-- C5 counterexample: with dedup disabled, reconcile succeeds although the
only incoming Profile references a credential name absent from the
incoming credential set — no structural-reference error is reported. -/
theorem mergeKubeconfig_dangling_nondedup_ok :
    (∃ q ∈ srvDangling.contexts, lookupM srvDangling.authInfos q.2.authInfo = none) ∧
      mergeKubeconfig "cloudctl" false emptyConfig srvDangling = Except.ok outDangling :=
  ⟨by decide, rfl⟩

/-- C5 (amended): reconcile fails exactly when dedup is enabled and some
incoming Profile references a credential name absent from the incoming
credential set; with dedup disabled reconcile always succeeds — incoming
Profile references are not validated. -/
theorem mergeKubeconfig_error_iff (pfx : String) (loc srv : Config) :
    ((∃ out, mergeKubeconfig pfx true loc srv = Except.ok out) ↔
      ∀ q ∈ srv.contexts, (lookupM srv.authInfos q.2.authInfo).isSome) ∧
    (∃ out, mergeKubeconfig pfx false loc srv = Except.ok out) := by
  constructor
  · constructor
    · intro h q hq
      exact (mergeKubeconfig_ok_iff pfx true loc srv).mp h q hq rfl
    · intro h
      exact (mergeKubeconfig_ok_iff pfx true loc srv).mpr fun q hq _ => h q hq
  · exact (mergeKubeconfig_ok_iff pfx false loc srv).mpr fun q hq hd => by simp at hd

/-- C8 counterexample: a managed-looking local Profile (both of its
references resolve into the managed namespace) stored under an unprefixed
key survives a successful reconcile although its name is absent from the
(empty) incoming set — the prune guard only examines prefixed Profile
keys. -/
theorem managed_looking_context_not_pruned :
    isManaged "cloudctl" "gone" = false ∧
      isManaged "cloudctl" ctxGone.cluster = true ∧
      isManaged "cloudctl" ctxGone.authInfo = true ∧
      emptyConfig.contexts = [] ∧
      lookupM locC8.contexts "gone" = some ctxGone ∧
      mergeKubeconfig "cloudctl" false locC8 emptyConfig = Except.ok locC8 :=
  ⟨by decide, by decide, by decide, rfl, rfl, rfl⟩

/-- C8 (amended): the prune guard applies to the Profiles stored under
managed (prefixed) keys: every context surviving a successful reconcile
under a prefixed key corresponds to an incoming Profile of the same
unprefixed name, with the Endpoint reference and the Credential reference
reconciliation would now produce; managed-looking Profiles under
unprefixed keys are exempt. -/
theorem managed_context_prune_guard (pfx : String) (dedup : Bool) (loc srv out : Config)
    (hok : mergeKubeconfig pfx dedup loc srv = Except.ok out)
    (k : String) (c : Context) (hm : isManaged pfx k = true)
    (hlk : lookupM out.contexts k = some c) :
    ∃ sc, lookupM srv.contexts (unmanagedNameFunc pfx k) = some sc ∧
      c.cluster = managedNameFunc pfx sc.cluster ∧
      expectedAuthName pfx dedup srv.authInfos sc.authInfo = some c.authInfo := by
  have hcond := (mergeKubeconfig_ok_iff pfx dedup loc srv).mp ⟨out, hok⟩
  have hout : out = mergeResult pfx dedup loc srv := by
    rw [mergeKubeconfig_ok pfx dedup loc srv hcond] at hok
    exact (Except.ok.inj hok).symm
  subst hout
  rw [mergeResult_ctx] at hlk
  have hkeep := List.of_mem_filter (mem_of_lookupM_eq_some _ _ _ hlk)
  simp only [keepContext, hm, if_true] at hkeep
  cases hsc : lookupM srv.contexts (unmanagedNameFunc pfx k) with
  | none => rw [hsc] at hkeep; exact absurd hkeep (by simp)
  | some sc =>
    rw [hsc] at hkeep
    refine ⟨sc, rfl, ?_⟩
    cases dedup with
    | false =>
      simp only [Bool.false_eq_true, if_false] at hkeep
      simp only [Bool.and_eq_true, beq_iff_eq] at hkeep
      exact ⟨hkeep.1, by rw [hkeep.2]; rfl⟩
    | true =>
      simp only [if_true] at hkeep
      cases hsa : lookupM srv.authInfos sc.authInfo with
      | none => rw [hsa] at hkeep; exact absurd hkeep (by simp)
      | some sa =>
        rw [hsa] at hkeep
        simp only [] at hkeep
        cases hmn : lookupM (amapFinal pfx true srv) (generateAuthInfoKey sa) with
        | none => rw [hmn] at hkeep; exact absurd hkeep (by simp)
        | some mn =>
          rw [hmn] at hkeep
          simp only [Bool.and_eq_true, beq_iff_eq] at hkeep
          have hmem2 : (generateAuthInfoKey sa, mn) ∈ srv.authInfos.foldl (amapStep pfx) [] := by
            have := mem_of_lookupM_eq_some _ _ _ hmn
            simpa [amapFinal] using this
          have hval := (mem_amapFold pfx srv.authInfos _ hmem2).1
          simp only at hval
          refine ⟨hkeep.1, ?_⟩
          simp only [expectedAuthName, if_true, hsa]
          rw [← hval, hkeep.2]

def ctxMg : Context :=
  { cluster := "cloudctl:c1", authInfo := "cloudctl:u1", ns := "", extensions := [] }

/-- Local configuration holding a managed-keyed Profile. -/
def locW8 : Config := { clusters := [], authInfos := [], contexts := [("cloudctl:p1", ctxMg)] }

def ctxP1 : Context := { cluster := "c1", authInfo := "u1", ns := "", extensions := [] }

def srvW8 : Config :=
  { clusters := [("c1", clusterS)]
    authInfos := [("u1", authPlain)]
    contexts := [("p1", ctxP1)] }

def outW8 : Config :=
  { clusters := [("cloudctl:c1", clusterS)]
    authInfos := [("cloudctl:u1", authPlain)]
    contexts := [("cloudctl:p1", ctxMg), ("p1", ctxMg)] }

/-- Witness for the amended C8 theorem at a concrete reconciliation. -/
theorem managed_context_prune_guard_witness :
    ∃ sc, lookupM srvW8.contexts (unmanagedNameFunc "cloudctl" "cloudctl:p1") = some sc ∧
      ctxMg.cluster = managedNameFunc "cloudctl" sc.cluster ∧
      expectedAuthName "cloudctl" false srvW8.authInfos sc.authInfo = some ctxMg.authInfo :=
  managed_context_prune_guard "cloudctl" false locW8 srvW8 outW8 rfl "cloudctl:p1" ctxMg
    (by decide) rfl

/-- The non-dedup reconciliation output for `srvC4` from `locC4`. -/
def outC4 : Config :=
  { clusters := [("x", clusterS), ("cloudctl:c1", clusterS)]
    authInfos := [("y", authPlain), ("cloudctl:u1", authPlain)]
    contexts := [("foo", { cluster := "cloudctl:c1", authInfo := "cloudctl:u1", ns := ""
                           extensions := [] })] }

/-- C4 counterexample: contexts are stored under their unprefixed incoming
names, so an unprefixed local Profile whose name collides with an incoming
Profile name is overwritten by a successful reconcile — it is not
byte-identical afterwards. -/
theorem unprefixed_context_overwritten :
    isManaged "cloudctl" "foo" = false ∧
      lookupM locC4.contexts "foo" = some ctxFoo ∧
      mergeKubeconfig "cloudctl" false locC4 srvC4 = Except.ok outC4 ∧
      lookupM outC4.contexts "foo" ≠ some ctxFoo :=
  ⟨by decide, rfl, rfl, by decide⟩

/-- C4 (amended): every local Endpoint or Credential entry under an
unprefixed key is unchanged by a successful reconcile, and a local Profile
entry under an unprefixed key is unchanged provided its name is not an
incoming Profile name (incoming Profiles are stored under their unprefixed
names and may overwrite same-named local Profiles). -/
theorem unprefixed_entries_preserved (pfx : String) (dedup : Bool) (loc srv out : Config)
    (hwf1 : NodupKeys loc.clusters) (hwf2 : NodupKeys loc.authInfos)
    (hwf3 : NodupKeys loc.contexts)
    (hok : mergeKubeconfig pfx dedup loc srv = Except.ok out)
    (k : String) (hk : isManaged pfx k = false) :
    lookupM out.clusters k = lookupM loc.clusters k ∧
    lookupM out.authInfos k = lookupM loc.authInfos k ∧
    (lookupM srv.contexts k = none → lookupM out.contexts k = lookupM loc.contexts k) := by
  have hcond := (mergeKubeconfig_ok_iff pfx dedup loc srv).mp ⟨out, hok⟩
  have hout : out = mergeResult pfx dedup loc srv := by
    rw [mergeKubeconfig_ok pfx dedup loc srv hcond] at hok
    exact (Except.ok.inj hok).symm
  subst hout
  refine ⟨?_, ?_, ?_⟩
  · rw [mergeResult_clusters]
    have hn1 : NodupKeys (srv.clusters.foldl (stepF (clusterKey pfx) clusterVal) loc.clusters) :=
      nodupKeys_foldl_stepF _ _ _ _ hwf1
    rw [lookupM_filter _ _ _ hn1, lookupM_foldl_stepF]
    have hes : srv.clusters.filter (fun e => clusterKey pfx e == k) = [] := by
      rw [List.filter_eq_nil_iff]
      intro p hp hbeq
      exact (ne_managedNameFunc_of_not_isManaged pfx k p.1 hk) (eq_of_beq hbeq).symm
    have hkeep : keepCluster pfx srv.clusters k = true := by
      simp [keepCluster, hk]
    rw [hes, chainF_nil]
    simp only [option_filter_const_true _ _ (fun _ => hkeep)]
  · rw [mergeResult_auth]
    have hkeep : keepAuthInfo pfx dedup (amapFinal pfx dedup srv) srv.authInfos k = true := by
      simp [keepAuthInfo, hk]
    cases dedup with
    | true =>
      simp only [if_true]
      have hn1 : NodupKeys (srv.authInfos.foldl (stepF (authKeyD pfx) authValD) loc.authInfos) :=
        nodupKeys_foldl_stepF _ _ _ _ hwf2
      rw [lookupM_filter _ _ _ hn1, lookupM_foldl_stepF]
      have hes : srv.authInfos.filter (fun e => authKeyD pfx e == k) = [] := by
        rw [List.filter_eq_nil_iff]
        intro p hp hbeq
        exact (ne_managedAuthNameOf_of_not_isManaged pfx k _ hk) (eq_of_beq hbeq).symm
      rw [hes, chainF_nil]
      simp only [option_filter_const_true _ _ (fun _ => hkeep)]
    | false =>
      simp only [Bool.false_eq_true, if_false]
      have hn1 : NodupKeys (srv.authInfos.foldl (stepF (authKeyN pfx) authValN) loc.authInfos) :=
        nodupKeys_foldl_stepF _ _ _ _ hwf2
      rw [lookupM_filter _ _ _ hn1, lookupM_foldl_stepF]
      have hes : srv.authInfos.filter (fun e => authKeyN pfx e == k) = [] := by
        rw [List.filter_eq_nil_iff]
        intro p hp hbeq
        exact (ne_managedNameFunc_of_not_isManaged pfx k p.1 hk) (eq_of_beq hbeq).symm
      rw [hes, chainF_nil]
      simp only [option_filter_const_true _ _ (fun _ => hkeep)]
  · intro hsrv
    rw [mergeResult_ctx]
    have hn1 : NodupKeys (srv.contexts.foldl
        (stepF Prod.fst (ctxVal pfx dedup srv.authInfos)) loc.contexts) :=
      nodupKeys_foldl_stepF _ _ _ _ hwf3
    rw [lookupM_filter _ _ _ hn1, lookupM_foldl_stepF]
    have hes : srv.contexts.filter (fun e => Prod.fst e == k) = [] := by
      rw [List.filter_eq_nil_iff]
      intro p hp hbeq
      have hpk : p.1 = k := eq_of_beq hbeq
      have hsome := lookupM_isSome_of_mem srv.contexts p hp
      rw [hpk, hsrv] at hsome
      simp at hsome
    have hkeep : ∀ v, keepContext pfx dedup srv (amapFinal pfx dedup srv) k v = true := by
      intro v
      simp [keepContext, hk]
    rw [hes, chainF_nil]
    simp only [option_filter_const_true _ _ hkeep]

/-- Witness for the amended C4 theorem at a concrete reconciliation. -/
theorem unprefixed_entries_preserved_witness :
    lookupM locC4.clusters "foo" = lookupM locC4.clusters "foo" ∧
    lookupM locC4.authInfos "foo" = lookupM locC4.authInfos "foo" ∧
    (lookupM emptyConfig.contexts "foo" = none →
      lookupM locC4.contexts "foo" = lookupM locC4.contexts "foo") :=
  unprefixed_entries_preserved "cloudctl" false locC4 emptyConfig locC4
    (by unfold NodupKeys; decide) (by unfold NodupKeys; decide)
    (by unfold NodupKeys; decide) rfl "foo" (by decide)

/-- Witness for the C3 idempotence theorem at a concrete reconciliation. -/
theorem mergeKubeconfig_idem_witness :
    ∃ out2, mergeKubeconfig "cloudctl" false outC4 srvC4 = Except.ok out2 ∧
      configEquiv out2 outC4 :=
  mergeKubeconfig_idem "cloudctl" false locC4 srvC4
    (by unfold NodupKeys; decide) (by unfold NodupKeys; decide) (by unfold NodupKeys; decide)
    (by unfold NodupKeys; decide) (by unfold NodupKeys; decide) (by unfold NodupKeys; decide)
    outC4 rfl

theorem authProvider_some_of_idToken (la : AuthInfo) (A : String)
    (h : idTokenOf la = some A) : ∃ lap, la.authProvider = some lap := by
  cases hl : la.authProvider with
  | none =>
    simp only [idTokenOf, hl] at h
    exact absurd h (by simp)
  | some lap => exact ⟨lap, rfl⟩

theorem authProvider_some_of_equal (la a : AuthInfo) (lap : AuthProviderConfig)
    (hl : la.authProvider = some lap) (he : authInfoEqual la a = true) :
    ∃ sap, a.authProvider = some sap := by
  cases ha : a.authProvider with
  | some sap => exact ⟨sap, rfl⟩
  | none =>
    simp only [authInfoEqual, hl, ha] at he
    split at he
    · exact absurd he (by simp)
    · split at he
      · exact absurd he (by simp)
      · exact absurd he (by simp)

/-- Both volatile tokens of the stored local credential survive
`mergeAuthInfoV` with any incoming credential that has an auth-provider
block. -/
theorem tokens_mergeV (a la : AuthInfo) (sap lap : AuthProviderConfig)
    (hs : a.authProvider = some sap) (hl : la.authProvider = some lap)
    (A B : String) (hid : idTokenOf la = some A) (hrf : refreshTokenOf la = some B) :
    idTokenOf (mergeAuthInfoV a la) = some A ∧
      refreshTokenOf (mergeAuthInfoV a la) = some B := by
  have hid2 : cfgLookup lap.config "id-token" = some A := by
    simpa [idTokenOf, hl] using hid
  have hrf2 : cfgLookup lap.config "refresh-token" = some B := by
    simpa [refreshTokenOf, hl] using hrf
  constructor
  · have hm : idTokenOf (mergeAuthInfoV a la) =
        lookupM (setTok (setTok (baseCfg sap.config) "id-token"
          (cfgLookup lap.config "id-token")) "refresh-token"
          (cfgLookup lap.config "refresh-token")) "id-token" := by
      simp [mergeAuthInfoV, hs, hl, idTokenOf, cfgLookup]
    rw [hm, lookupM_setTok_ne _ _ _ _ (by decide), lookupM_setTok_self, hid2]
    rfl
  · have hm : refreshTokenOf (mergeAuthInfoV a la) =
        lookupM (setTok (setTok (baseCfg sap.config) "id-token"
          (cfgLookup lap.config "id-token")) "refresh-token"
          (cfgLookup lap.config "refresh-token")) "refresh-token" := by
      simp [mergeAuthInfoV, hs, hl, refreshTokenOf, cfgLookup]
    rw [hm, lookupM_setTok_self, hrf2]
    rfl

/-- C1: token preservation across merges, in both modes.  If the local
configuration stores, under the managed credential name the incoming
credential reconciles to, a credential with the same stable fields holding
`id-token = A` and `refresh-token = B`, then after a successful reconcile
the credential stored under that managed name still holds `id-token = A`
and `refresh-token = B`. -/
theorem token_preservation (pfx : String) (dedup : Bool) (loc srv : Config)
    (n0 : String) (a0 la : AuthInfo) (A B : String)
    (hwf2 : NodupKeys loc.authInfos)
    (hsrv : srv.authInfos = [(n0, a0)])
    (hname : lookupM loc.authInfos
      (if dedup then managedAuthNameOf pfx (generateAuthInfoKey a0)
       else managedNameFunc pfx n0) = some la)
    (hstable : authInfoEqual la a0 = true)
    (hid : idTokenOf la = some A) (hrf : refreshTokenOf la = some B)
    (out : Config) (hok : mergeKubeconfig pfx dedup loc srv = Except.ok out) :
    ∃ m, lookupM out.authInfos
      (if dedup then managedAuthNameOf pfx (generateAuthInfoKey a0)
       else managedNameFunc pfx n0) = some m ∧
      idTokenOf m = some A ∧ refreshTokenOf m = some B := by
  have hcond := (mergeKubeconfig_ok_iff pfx dedup loc srv).mp ⟨out, hok⟩
  have hout : out = mergeResult pfx dedup loc srv := by
    rw [mergeKubeconfig_ok pfx dedup loc srv hcond] at hok
    exact (Except.ok.inj hok).symm
  subst hout
  obtain ⟨lap, hlap⟩ := authProvider_some_of_idToken la A hid
  obtain ⟨sap, hsap⟩ := authProvider_some_of_equal la a0 lap hlap hstable
  cases dedup with
  | true =>
    simp only [if_true] at hname ⊢
    have hL : lookupM (mergeResult pfx true loc srv).authInfos
        (managedAuthNameOf pfx (generateAuthInfoKey a0)) = some (mergeAuthInfoV a0 la) := by
      rw [mergeResult_auth]
      simp only [if_true, amapFinal, hsrv]
      have hn1 : NodupKeys (List.foldl (stepF (authKeyD pfx) authValD) loc.authInfos
          [(n0, a0)]) := nodupKeys_foldl_stepF _ _ _ _ hwf2
      rw [lookupM_filter _ _ _ hn1, lookupM_foldl_stepF]
      have hfil : [(n0, a0)].filter
          (fun e => authKeyD pfx e == managedAuthNameOf pfx (generateAuthInfoKey a0)) =
          [(n0, a0)] := by
        simp [authKeyD]
      rw [hfil, chainF_single, hname]
      have hkeep : keepAuthInfo pfx true (amapStep pfx [] (n0, a0)) [(n0, a0)]
          (managedAuthNameOf pfx (generateAuthInfoKey a0)) = true :=
        keepAuthInfo_dedup_mem pfx [(n0, a0)] (n0, a0) (by simp)
      simp [option_filter_some, hkeep, authValD]
    exact ⟨mergeAuthInfoV a0 la, hL,
      (tokens_mergeV a0 la sap lap hsap hlap A B hid hrf).1,
      (tokens_mergeV a0 la sap lap hsap hlap A B hid hrf).2⟩
  | false =>
    simp only [Bool.false_eq_true, if_false] at hname ⊢
    have hL : lookupM (mergeResult pfx false loc srv).authInfos
        (managedNameFunc pfx n0) = some la := by
      rw [mergeResult_auth]
      simp only [Bool.false_eq_true, if_false, amapFinal, hsrv]
      have hn1 : NodupKeys (List.foldl (stepF (authKeyN pfx) authValN) loc.authInfos
          [(n0, a0)]) := nodupKeys_foldl_stepF _ _ _ _ hwf2
      rw [lookupM_filter _ _ _ hn1, lookupM_foldl_stepF]
      have hfil : [(n0, a0)].filter
          (fun e => authKeyN pfx e == managedNameFunc pfx n0) = [(n0, a0)] := by
        simp [authKeyN]
      rw [hfil, chainF_single, hname]
      have hval : authValN (n0, a0) (some la) = la := by
        simp [authValN, hstable]
      have hkeep : keepAuthInfo pfx false [] [(n0, a0)] (managedNameFunc pfx n0) = true :=
        keepAuthInfo_nondedup_mem pfx [] [(n0, a0)] (n0, a0) (by simp)
      simp [option_filter_some, hkeep, hval]
    exact ⟨la, hL, hid, hrf⟩

def apcTok : AuthProviderConfig :=
  { name := "oidc"
    config := some [("client-id", "cid"), ("id-token", "A"), ("refresh-token", "B")] }

/-- Local managed credential holding both volatile tokens. -/
def laTok : AuthInfo :=
  { clientCertificateData := [], clientKeyData := [], authProvider := some apcTok, exec := none }

def apcIn : AuthProviderConfig := { name := "oidc", config := some [("client-id", "cid")] }

/-- Incoming credential: same stable fields, no tokens. -/
def aIn : AuthInfo :=
  { clientCertificateData := [], clientKeyData := [], authProvider := some apcIn, exec := none }

def locC1 : Config :=
  { clusters := [], authInfos := [("cloudctl:u1", laTok)], contexts := [] }

def srvC1 : Config :=
  { clusters := [], authInfos := [("u1", aIn)], contexts := [] }

/-- Witness for the C1 theorem at a concrete non-dedup reconciliation. -/
theorem token_preservation_witness :
    ∃ m, lookupM locC1.authInfos
      (if (false : Bool) then managedAuthNameOf "cloudctl" (generateAuthInfoKey aIn)
       else managedNameFunc "cloudctl" "u1") = some m ∧
      idTokenOf m = some "A" ∧ refreshTokenOf m = some "B" :=
  token_preservation "cloudctl" false locC1 srvC1 "u1" aIn laTok "A" "B"
    (by unfold NodupKeys; decide) rfl (by decide) (by decide) (by decide) (by decide)
    locC1 rfl

theorem chainF_some_isSome {α β : Type} (f : β → Option α → α) (x : α) (t : List β) :
    (chainF f (some x) t).isSome := by
  induction t generalizing x with
  | nil => rfl
  | cons e u ih =>
    rw [chainF_cons]
    exact ih _

/-- The dedup reconciliation output for `srvScopeOrder` from an empty
local configuration: two managed credentials, one per scope order. -/
def outScopeOrder : Config :=
  { clusters := [("cloudctl:c1", clusterS)]
    authInfos := [("cloudctl:auth-e42b251576a889b2", authScopesAB),
                  ("cloudctl:auth-8d8dcc71560a0ce9", authScopesBA)]
    contexts := [("p1", { cluster := "cloudctl:c1", authInfo := "cloudctl:auth-e42b251576a889b2"
                          ns := "", extensions := [] }),
                 ("p2", { cluster := "cloudctl:c1", authInfo := "cloudctl:auth-8d8dcc71560a0ce9"
                          ns := "", extensions := [] })] }

set_option maxRecDepth 10000 in
/-- C2 counterexample: two incoming credentials whose stable fields agree
except that the comma-separated `extra-scopes` value is declared in a
different order (`a,b` versus `b,a`) get different canonical keys, so a
dedup reconcile keeps two managed credential entries and the two Profiles
reference different entries — no collapse happens. -/
theorem dedup_scope_order_two_entries :
    cfgGet apcAB.config "extra-scopes" = "a,b" ∧
      cfgGet apcBA.config "extra-scopes" = "b,a" ∧
      cfgGet apcAB.config "client-id" = cfgGet apcBA.config "client-id" ∧
      generateAuthInfoKey authScopesAB ≠ generateAuthInfoKey authScopesBA ∧
      mergeKubeconfig "cloudctl" true emptyConfig srvScopeOrder = Except.ok outScopeOrder ∧
      outScopeOrder.authInfos.map Prod.fst =
        ["cloudctl:auth-e42b251576a889b2", "cloudctl:auth-8d8dcc71560a0ce9"] ∧
      (lookupM outScopeOrder.contexts "p1").map Context.authInfo =
        some "cloudctl:auth-e42b251576a889b2" ∧
      (lookupM outScopeOrder.contexts "p2").map Context.authInfo =
        some "cloudctl:auth-8d8dcc71560a0ce9" :=
  ⟨rfl, rfl, rfl, by decide, rfl, rfl, rfl, rfl⟩

/-- C2 (amended): two incoming credentials with the same canonical key —
identical stable fields including the same declaration order of the
`extra-scopes` value — collapse under a dedup reconcile: every surviving
managed credential name equals the one managed name derived from the
shared key, that entry is present, and both reconciled Profiles reference
it.  With different declaration orders the canonical keys differ and two
managed entries remain. -/
theorem dedup_collapse (pfx : String) (loc srv : Config)
    (n1 n2 c1 c2 : String) (a1 a2 : AuthInfo) (x1 x2 : Context)
    (hwf2 : NodupKeys loc.authInfos) (hwf3 : NodupKeys loc.contexts)
    (hsa : srv.authInfos = [(n1, a1), (n2, a2)])
    (hn : n1 ≠ n2)
    (hkey : generateAuthInfoKey a1 = generateAuthInfoKey a2)
    (hctx : srv.contexts = [(c1, x1), (c2, x2)])
    (hx1 : x1.authInfo = n1) (hx2 : x2.authInfo = n2)
    (hc : c1 ≠ c2)
    (hm1 : isManaged pfx c1 = false) (hm2 : isManaged pfx c2 = false)
    (out : Config) (hok : mergeKubeconfig pfx true loc srv = Except.ok out) :
    (∀ k, isManaged pfx k = true → (lookupM out.authInfos k).isSome →
      k = managedAuthNameOf pfx (generateAuthInfoKey a1)) ∧
    (lookupM out.authInfos (managedAuthNameOf pfx (generateAuthInfoKey a1))).isSome ∧
    (∃ c, lookupM out.contexts c1 = some c ∧
      c.authInfo = managedAuthNameOf pfx (generateAuthInfoKey a1)) ∧
    (∃ c, lookupM out.contexts c2 = some c ∧
      c.authInfo = managedAuthNameOf pfx (generateAuthInfoKey a1)) := by
  have hcond := (mergeKubeconfig_ok_iff pfx true loc srv).mp ⟨out, hok⟩
  have hout : out = mergeResult pfx true loc srv := by
    rw [mergeKubeconfig_ok pfx true loc srv hcond] at hok
    exact (Except.ok.inj hok).symm
  subst hout
  refine ⟨?_, ?_, ?_, ?_⟩
  · intro k hkm hks
    rw [mergeResult_auth] at hks
    simp only [if_true] at hks
    obtain ⟨w, hw⟩ := Option.isSome_iff_exists.mp hks
    have hkeep := List.of_mem_filter (mem_of_lookupM_eq_some _ _ _ hw)
    simp only [keepAuthInfo, hkm, if_true] at hkeep
    obtain ⟨q, hqmem, hqk⟩ := List.any_eq_true.mp hkeep
    obtain ⟨hq2, p, hpmem, hpk⟩ :=
      mem_amapFold pfx srv.authInfos q (by simpa [amapFinal] using hqmem)
    have hpkey : generateAuthInfoKey p.2 = generateAuthInfoKey a1 := by
      rw [hsa] at hpmem
      rcases List.mem_cons.mp hpmem with h | h
      · subst h
        rfl
      · rcases List.mem_cons.mp h with h | h
        · subst h
          exact hkey.symm
        · simp at h
    have hkq : k = q.2 := (eq_of_beq hqk).symm
    rw [hkq, hq2, ← hpk, hpkey]
  · rw [mergeResult_auth]
    simp only [if_true, hsa, amapFinal]
    have hn1 : NodupKeys (List.foldl (stepF (authKeyD pfx) authValD) loc.authInfos
        [(n1, a1), (n2, a2)]) := nodupKeys_foldl_stepF _ _ _ _ hwf2
    rw [lookupM_filter _ _ _ hn1, lookupM_foldl_stepF]
    have hfil : [(n1, a1), (n2, a2)].filter (fun e => authKeyD pfx e ==
        managedAuthNameOf pfx (generateAuthInfoKey a1)) = [(n1, a1), (n2, a2)] := by
      simp [authKeyD, hkey]
    rw [hfil]
    have hkeep : keepAuthInfo pfx true
        (List.foldl (amapStep pfx) [] [(n1, a1), (n2, a2)]) [(n1, a1), (n2, a2)]
        (managedAuthNameOf pfx (generateAuthInfoKey a1)) = true :=
      keepAuthInfo_dedup_mem pfx [(n1, a1), (n2, a2)] (n1, a1) (by simp)
    simp only [option_filter_const_true _ _ (fun _ => hkeep)]
    rw [chainF_cons]
    exact chainF_some_isSome _ _ _
  · rw [mergeResult_ctx]
    have hn1 : NodupKeys (srv.contexts.foldl
        (stepF Prod.fst (ctxVal pfx true srv.authInfos)) loc.contexts) :=
      nodupKeys_foldl_stepF _ _ _ _ hwf3
    rw [lookupM_filter _ _ _ hn1, lookupM_foldl_stepF, hctx]
    have hfil : [(c1, x1), (c2, x2)].filter (fun e => Prod.fst e == c1) = [(c1, x1)] := by
      have h21 : (c2 == c1) = false := by
        simpa using (Ne.symm hc)
      simp [List.filter, h21]
    rw [hfil, chainF_single]
    have hauth : (ctxVal pfx true srv.authInfos (c1, x1)
        (lookupM loc.contexts c1)).authInfo =
        managedAuthNameOf pfx (generateAuthInfoKey a1) := by
      rw [ctxVal_authInfo]
      simp [expectedAuthName, hsa, hx1, lookupM]
    have hkeepc : keepContext pfx true srv (amapFinal pfx true srv) c1
        (ctxVal pfx true srv.authInfos (c1, x1) (lookupM loc.contexts c1)) = true := by
      simp [keepContext, hm1]
    refine ⟨_, ?_, hauth⟩
    simp [option_filter_some, hkeepc]
  · rw [mergeResult_ctx]
    have hn1 : NodupKeys (srv.contexts.foldl
        (stepF Prod.fst (ctxVal pfx true srv.authInfos)) loc.contexts) :=
      nodupKeys_foldl_stepF _ _ _ _ hwf3
    rw [lookupM_filter _ _ _ hn1, lookupM_foldl_stepF, hctx]
    have hfil : [(c1, x1), (c2, x2)].filter (fun e => Prod.fst e == c2) = [(c2, x2)] := by
      have h12 : (c1 == c2) = false := by
        simpa using hc
      simp [List.filter, h12]
    rw [hfil, chainF_single]
    have hauth : (ctxVal pfx true srv.authInfos (c2, x2)
        (lookupM loc.contexts c2)).authInfo =
        managedAuthNameOf pfx (generateAuthInfoKey a1) := by
      rw [ctxVal_authInfo]
      simp [expectedAuthName, hsa, hx2, lookupM, hn, hkey]
    have hkeepc : keepContext pfx true srv (amapFinal pfx true srv) c2
        (ctxVal pfx true srv.authInfos (c2, x2) (lookupM loc.contexts c2)) = true := by
      simp [keepContext, hm2]
    refine ⟨_, ?_, hauth⟩
    simp [option_filter_some, hkeepc]

def apcAB2 : AuthProviderConfig :=
  { name := "oidc"
    config := some [("client-id", "cid"), ("extra-scopes", "a,b"), ("id-token", "tokB")] }

/-- Same stable fields and scope order as `authScopesAB`, other token. -/
def authScopesAB2 : AuthInfo :=
  { clientCertificateData := [], clientKeyData := [], authProvider := some apcAB2, exec := none }

def srvSameScopes : Config :=
  { clusters := [("c1", clusterS)]
    authInfos := [("u1", authScopesAB), ("u2", authScopesAB2)]
    contexts := [("p1", { cluster := "c1", authInfo := "u1", ns := "", extensions := [] }),
                 ("p2", { cluster := "c1", authInfo := "u2", ns := "", extensions := [] })] }

/-- The dedup reconciliation output for `srvSameScopes`: one managed
credential referenced by both profiles. -/
def outSameScopes : Config :=
  { clusters := [("cloudctl:c1", clusterS)]
    authInfos := [("cloudctl:auth-e42b251576a889b2", authScopesAB)]
    contexts := [("p1", { cluster := "cloudctl:c1", authInfo := "cloudctl:auth-e42b251576a889b2"
                          ns := "", extensions := [] }),
                 ("p2", { cluster := "cloudctl:c1", authInfo := "cloudctl:auth-e42b251576a889b2"
                          ns := "", extensions := [] })] }

set_option maxRecDepth 10000 in
/-- Witness for the amended C2 theorem at a concrete dedup
reconciliation. -/
theorem dedup_collapse_witness :
    (lookupM outSameScopes.authInfos
      (managedAuthNameOf "cloudctl" (generateAuthInfoKey authScopesAB))).isSome :=
  (dedup_collapse "cloudctl" emptyConfig srvSameScopes "u1" "u2" "p1" "p2"
    authScopesAB authScopesAB2
    { cluster := "c1", authInfo := "u1", ns := "", extensions := [] }
    { cluster := "c1", authInfo := "u2", ns := "", extensions := [] }
    (by unfold NodupKeys; decide) (by unfold NodupKeys; decide)
    rfl (by decide) rfl rfl rfl rfl (by decide) (by decide) (by decide)
    outSameScopes rfl).2.1

theorem findSome?_connector (v : String) (l1 l2 : List String)
    (hl1 : ∀ p ∈ l1, goHasPrefix p "connector_id=" = false) :
    ((l1 ++ ("connector_id=" ++ v) :: l2).findSome? fun part =>
      if goHasPrefix part "connector_id=" then some (String.mk (part.data.drop 13))
      else none) = some v := by
  induction l1 with
  | nil =>
    have hpre : goHasPrefix ("connector_id=" ++ v) "connector_id=" = true := by
      simp only [goHasPrefix, String.data_append]
      rw [List.isPrefixOf_iff_prefix]
      exact List.prefix_append _ _
    simp only [List.nil_append, List.findSome?, hpre, if_true]
    rfl
  | cons p t ih =>
    have hp : goHasPrefix p "connector_id=" = false := hl1 p (by simp)
    simp only [List.cons_append, List.findSome?, hp, Bool.false_eq_true, if_false]
    exact ih fun q hq => hl1 q (List.mem_cons_of_mem _ hq)

theorem findSome?_connector_none (l : List String)
    (hl : ∀ p ∈ l, goHasPrefix p "connector_id=" = false) :
    (l.findSome? fun part =>
      if goHasPrefix part "connector_id=" then some (String.mk (part.data.drop 13))
      else none) = none := by
  induction l with
  | nil => rfl
  | cons p t ih =>
    have hp : goHasPrefix p "connector_id=" = false := hl p (by simp)
    simp only [List.findSome?, hp, Bool.false_eq_true, if_false]
    exact ih fun q hq => hl q (List.mem_cons_of_mem _ hq)

/-- C9: connector-scoped cache path.  If the raw `auth-request-extra-params`
value splits at commas into a list containing a `connector_id=<value>`
component (in any position — the components before it are non-connector
components), the synthesized argument vector contains
`--token-cache-dir=<cacheBaseDir>/<value>`; if no component carries the
`connector_id=` prefix it contains `--token-cache-dir=<cacheBaseDir>`. -/
theorem buildKubeloginArgs_cache_dir (cfg : List (String × String)) (extraArgs : List String)
    (base raw v : String) (l1 l2 : List String)
    (hraw : (lookupM cfg "auth-request-extra-params").getD "" = raw) :
    ((goSplitComma raw = l1 ++ ("connector_id=" ++ v) :: l2 ∧
      ∀ p ∈ l1, goHasPrefix p "connector_id=" = false) →
      ("--token-cache-dir=" ++ (base ++ "/" ++ v)) ∈ buildKubeloginArgs cfg extraArgs base) ∧
    ((∀ p ∈ goSplitComma raw, goHasPrefix p "connector_id=" = false) →
      ("--token-cache-dir=" ++ base) ∈ buildKubeloginArgs cfg extraArgs base) := by
  constructor
  · rintro ⟨hsplit, hl1⟩
    have hconn : connectorIdOf raw = some v := by
      unfold connectorIdOf
      rw [hsplit]
      exact findSome?_connector v l1 l2 hl1
    simp [buildKubeloginArgs, hraw, hconn]
  · intro hnone
    have hconn : connectorIdOf raw = none := by
      unfold connectorIdOf
      exact findSome?_connector_none _ hnone
    simp [buildKubeloginArgs, hraw, hconn]

/-- Witness for the C9 theorem at the specification's examples. -/
theorem buildKubeloginArgs_cache_dir_witness :
    ("--token-cache-dir=" ++ ("/base" ++ "/" ++ "XYZ")) ∈
      buildKubeloginArgs [("auth-request-extra-params", "foo=bar,connector_id=XYZ")] [] "/base" ∧
    ("--token-cache-dir=" ++ "/base") ∈
      buildKubeloginArgs [("client-id", "cid")] [] "/base" := by
  constructor
  · exact (buildKubeloginArgs_cache_dir
      [("auth-request-extra-params", "foo=bar,connector_id=XYZ")] [] "/base"
      "foo=bar,connector_id=XYZ" "XYZ" ["foo=bar"] [] rfl).1 ⟨by decide, by decide⟩
  · exact (buildKubeloginArgs_cache_dir [("client-id", "cid")] [] "/base"
      "" "" [] [] rfl).2 (by decide)

def srvNil : Config := { clusters := [], authInfos := [("u1", authNilCfg)], contexts := [] }

/-- First dedup reconciliation output for `srvNil`: the incoming
credential is stored verbatim, `nil` config map included. -/
def outNil1 : Config :=
  { clusters := []
    authInfos := [("cloudctl:auth-7bf2762bc2049555", authNilCfg)]
    contexts := [] }

/-- Second dedup reconciliation output: the re-merge materialises the
`nil` config map as an empty map. -/
def outNil2 : Config :=
  { clusters := []
    authInfos := [("cloudctl:auth-7bf2762bc2049555",
      { clientCertificateData := [], clientKeyData := []
        authProvider := some { name := "oidc", config := some [] }, exec := none })]
    contexts := [] }

set_option maxRecDepth 10000 in
/-- C3 counterexample: reconciliation is not strictly idempotent.  In dedup
mode a second run re-merges the stored credential, initialising its `nil`
auth-provider config map to an empty map, so the second run's output is
not identical to the first run's output. -/
theorem mergeKubeconfig_not_strictly_idem :
    mergeKubeconfig "cloudctl" true emptyConfig srvNil = Except.ok outNil1 ∧
      mergeKubeconfig "cloudctl" true outNil1 srvNil = Except.ok outNil2 ∧
      outNil1 ≠ outNil2 :=
  ⟨rfl, rfl, by decide⟩

end Cloudctl
